import Mathlib

/-!
Verification development for the crosswd library, a Go package that reads,
validates, mutates and rewrites crossword puzzles in the binary .puz format
(src/crosswd.go, with an earlier variant of the library in src/unnamed/part_001).

Shallow-embedding conventions:
* Bytes are Nat values (less than 256 where that matters); byte streams and
  Go byte slices are List Nat.
* Go uint16 arithmetic is Nat arithmetic reduced mod 65536 at each operation
  that can overflow.
* Go strings are lists of unicode code points (List Nat).  The library pipes
  all text through an ISO 8859-1 decoder, which maps byte b to code point b,
  so decoding is the numeric identity on lists; the encoder is modelled by
  puzEncode below.
* Go maps are association lists with first-match lookup; a map write conses a
  fresh key onto the front (in this code base every key is written at most
  once per map).
* Go int division and remainder truncate toward zero: they are Int.tdiv and
  Int.tmod.
* The one unbounded loop in the library (NextCell with doSkip = true) is
  modelled with explicit fuel, returning none when the fuel runs out.
-/

namespace Crosswd

/-- Coord (src/crosswd.go): a 2D coordinate with Go int components. -/
structure Coord where
  x : Int
  y : Int
deriving DecidableEq, Repr

/-- Direction (src/crosswd.go): a relative direction. -/
inductive Direction where
  | NoDir
  | Up
  | Down
  | Left
  | Right
deriving DecidableEq, Repr

/-- Opposite (src/crosswd.go) returns the opposite direction. -/
def Direction.Opposite : Direction → Direction
  | .Left => .Right
  | .Right => .Left
  | .Up => .Down
  | .Down => .Up
  | .NoDir => .NoDir

/-- Delta (src/crosswd.go) returns a unit vector in the direction d. -/
def Direction.Delta : Direction → Coord
  | .Up => ⟨0, -1⟩
  | .Down => ⟨0, 1⟩
  | .Left => ⟨-1, 0⟩
  | .Right => ⟨1, 0⟩
  | .NoDir => ⟨0, 0⟩

/-- Blank constant (src/crosswd.go): the byte for a dot, a non-playable cell. -/
def Blank : Nat := 46

/-- Empty constant (src/crosswd.go): the byte for a dash, an unfilled cell. -/
def EmptyCell : Nat := 45

/-- Magic constant (src/crosswd.go): the bytes of "ACROSS&DOWN" plus NUL. -/
def magicBytes : List Nat := [65, 67, 82, 79, 83, 83, 38, 68, 79, 87, 78, 0]

/-- CksumMagic constant (src/crosswd.go): the bytes of "ICHEATED". -/
def cksumMagicBytes : List Nat := [73, 67, 72, 69, 65, 84, 69, 68]

/-- Grid (src/crosswd.go): a 2D byte array stored contiguously, row-major.
The Go struct keeps the backing slice elts plus per-row slices; the row
slices are determined by width and height, so the embedding keeps the two
dimensions and the flat element list. -/
structure Grid where
  width : Nat
  height : Nat
  elts : List Nat
deriving DecidableEq, Repr

/-- NewGrid (src/crosswd.go): a fresh zeroed grid; dimensions below 1 are
clamped to 1. -/
def NewGrid (width height : Nat) : Grid :=
  ⟨max width 1, max height 1, List.replicate (max width 1 * max height 1) 0⟩

/-- Size (src/crosswd.go): the grid dimensions as a Coord. -/
def Grid.Size (g : Grid) : Coord := ⟨(g.width : Int), (g.height : Int)⟩

/-- Valid (src/crosswd.go): whether a point is within the grid range. -/
def Grid.Valid (g : Grid) (p : Coord) : Bool :=
  decide (0 ≤ p.y) && decide (p.y < (g.height : Int)) &&
    decide (0 ≤ p.x) && decide (p.x < (g.width : Int))

/-- At (src/crosswd.go): the value at p when p is valid.  Go returns a pair
of a byte and a bool; the embedding returns an Option. -/
def Grid.At (g : Grid) (p : Coord) : Option Nat :=
  if g.Valid p then some (g.elts.getD (p.y.toNat * g.width + p.x.toNat) 0)
  else none

/-- calcCksum (src/crosswd.go lines 452-457): the rolling checksum.  The Go
body is the single statement

  cksum = (cksum >> 1) | ((cksum & 1) << 15) + uint16(b)

in which Go gives the | and + operators equal precedence with left
associativity, so it parses as ((cksum >> 1) | ((cksum & 1) << 15)) + b,
with uint16 overflow on the addition. -/
def calcCksum (data : List Nat) (cksum : Nat) : Nat :=
  data.foldl (fun c b => (((c >>> 1) ||| ((c &&& 1) <<< 15)) + b) % 65536) cksum

/-- calcCksum as written in the earlier library variant
(src/unnamed/part_001 lines 384-390), where the rotation and the addition
are two separate statements:

  cksum = (cksum >> 1) | ((cksum & 1) << 15)
  cksum += uint16(b)
-/
def calcCksumV1 (data : List Nat) (cksum : Nat) : Nat :=
  data.foldl
    (fun c b =>
      let rotated := (c >>> 1) ||| ((c &&& 1) <<< 15)
      (rotated + b) % 65536)
    cksum

/-- Modelled from the spec: rotate a 16-bit accumulator right by one bit,
the bit shifted out of the low end re-entering at the high end. -/
def rotr16 (c : Nat) : Nat := c / 2 + c % 2 * 32768

/-- Modelled from the spec: the reference rolling checksum, rotate right by
one bit then add the byte value, truncating to 16 bits. -/
def calcCksumSpec (data : List Nat) (cksum : Nat) : Nat :=
  data.foldl (fun c b => (rotr16 c + b) % 65536) cksum

theorem lor_two_pow_fifteen_eq_add {a : Nat} (h : a < 2 ^ 15) :
    a ||| 2 ^ 15 = a + 2 ^ 15 := by
  apply Nat.eq_of_testBit_eq
  intro j
  rw [Nat.testBit_or]
  have hsum : a + 2 ^ 15 = 2 ^ 15 * 1 + a := by ring
  rw [hsum, Nat.testBit_mul_pow_two_add (b := a) (i := 15) 1 h j]
  rcases Nat.lt_trichotomy j 15 with hj | hj | hj
  · rw [Nat.testBit_two_pow_of_ne (by omega : (15 : Nat) ≠ j)]
    simp [hj]
  · subst hj
    rw [Nat.testBit_two_pow_self, Nat.testBit_lt_two_pow h]
    simp
  · have h1 : ¬ j < 15 := by omega
    have h2 : a < 2 ^ j := lt_of_lt_of_le h (Nat.pow_le_pow_right (by norm_num) (by omega))
    rw [Nat.testBit_two_pow_of_ne (by omega : (15 : Nat) ≠ j), Nat.testBit_lt_two_pow h2]
    simp only [h1, if_false, Bool.or_false]
    rcases Nat.exists_eq_add_of_lt hj with ⟨k, hk⟩
    have hjk : j - 15 = k + 1 := by omega
    rw [hjk]
    simp [Nat.testBit_succ]

theorem rot_step_eq_rotr16 {c : Nat} (h : c < 65536) :
    (c >>> 1) ||| ((c &&& 1) <<< 15) = rotr16 c := by
  rw [Nat.shiftRight_one, Nat.and_one_is_mod, Nat.shiftLeft_eq, rotr16]
  rcases Nat.mod_two_eq_zero_or_one c with h2 | h2
  · simp [h2]
  · rw [h2]
    have hlt : c / 2 < 2 ^ 15 := by omega
    calc c / 2 ||| 1 * 2 ^ 15 = c / 2 ||| 2 ^ 15 := by rw [one_mul]
      _ = c / 2 + 2 ^ 15 := lor_two_pow_fifteen_eq_add hlt
      _ = c / 2 + 1 * 32768 := by norm_num

theorem calcCksum_lt (data : List Nat) (cksum : Nat) (h : cksum < 65536) :
    calcCksum data cksum < 65536 := by
  induction data generalizing cksum with
  | nil => exact h
  | cons b bs ih =>
    simp only [calcCksum, List.foldl_cons] at *
    exact ih _ (Nat.mod_lt _ (by norm_num))

/-- C3.  calcCksum implements the reference rolling checksum: starting from
the seed, each byte rotates the 16-bit accumulator right by one bit (the low
bit re-entering at the high end) and is then added mod 2^16; moreover the
single-expression update in src/crosswd.go computes the same function as the
explicit two-statement rotate-then-add variant in src/unnamed/part_001. -/
theorem c3_calcCksum_rolling (data : List Nat) (seed : Nat) (h : seed < 65536) :
    calcCksum data seed = calcCksumSpec data seed ∧
      calcCksum data seed = calcCksumV1 data seed := by
  constructor
  · induction data generalizing seed with
    | nil => rfl
    | cons b bs ih =>
      simp only [calcCksum, calcCksumSpec, List.foldl_cons] at *
      rw [rot_step_eq_rotr16 h]
      exact ih _ (Nat.mod_lt _ (by norm_num))
  · rfl

theorem c3_calcCksum_rolling_witness :
    calcCksum [7, 200] 3 = calcCksumSpec [7, 200] 3 ∧
      calcCksum [7, 200] 3 = calcCksumV1 [7, 200] 3 :=
  c3_calcCksum_rolling [7, 200] 3 (by norm_num)

/-- Header (src/crosswd.go): the fixed-layout .puz file header.  uint16
fields are Nat (kept below 65536), uint8 fields are Nat (kept below 256),
byte-array fields are byte lists of the declared length. -/
structure Header where
  Cksum : Nat
  Magic : List Nat
  HeaderCksum : Nat
  MagicCksum : List Nat
  Version : List Nat
  Unused : List Nat
  Unknown : List Nat
  Reserved : List Nat
  Width : Nat
  Height : Nat
  NumClues : Nat
  BitMask1 : List Nat
  BitMask2 : List Nat
deriving DecidableEq, Repr

/-- Puzzle (src/crosswd.go): the state of a crossword puzzle.  grid is the
embedded working Grid; the four derived maps are association lists. -/
structure Puzzle where
  header : Header
  grid : Grid
  solution : Grid
  title : List Nat
  author : List Nat
  copyright : List Nat
  clues : List (List Nat)
  notes : List Nat
  extra : List Nat
  cellID : List (Coord × Nat)
  idCell : List (Nat × Coord)
  clueNumR : List (Nat × Nat)
  clueNumD : List (Nat × Nat)
deriving DecidableEq, Repr

/-- Go map lookup on an association list: first match wins. -/
def lookupA {α β : Type} [DecidableEq α] : List (α × β) → α → Option β
  | [], _ => none
  | (k, v) :: rest, a => if k = a then some v else lookupA rest a

/-- encode (src/crosswd.go lines 444-450): run a string through the
ISO 8859-1 encoder; on error (some code point is outside 0-255) the Go
wrapper silently returns the empty byte slice. -/
def puzEncode (str : List Nat) : List Nat :=
  if str.all (fun c => c < 256) then str else []

/-- Serialization of a uint16 value in little-endian byte order,
as binary.Write does for the header fields. -/
def u16le (n : Nat) : List Nat := [n % 256, n / 256 % 256]

/-- HeaderCksum (src/crosswd.go lines 387-396): checksum of width, height,
clue count (little endian) and the two bitmask fields, from seed 0. -/
def Puzzle.HeaderCksum (p : Puzzle) : Nat :=
  calcCksum
    ([p.header.Width, p.header.Height] ++ u16le p.header.NumClues ++
      p.header.BitMask1 ++ p.header.BitMask2) 0

/-- Version string "1.3" as bytes, the right operand of the Go comparison
string(p.Header.Version[:]) >= "1.3". -/
def ver13 : List Nat := [49, 46, 51]

/-- Go string less-than: lexicographic byte order, a proper prefix sorting
first. -/
def strLT : List Nat → List Nat → Bool
  | _, [] => false
  | [], _ :: _ => true
  | a :: as, b :: bs => a < b || (a = b && strLT as bs)

/-- Go string greater-or-equal, the comparison used for the version gate. -/
def strGE (a b : List Nat) : Bool := ! strLT a b

/-- TextCksum (src/crosswd.go lines 398-418): continue the rolling checksum
over Title+NUL, Author+NUL and Copyright+NUL (each only when the field is
non-empty), then each clue without a NUL, then Notes+NUL only when the
version string is at least "1.3" and Notes is non-empty. -/
def Puzzle.TextCksum (p : Puzzle) (cksum : Nat) : Nat :=
  let c1 := if p.title.length > 0 then calcCksum (puzEncode (p.title ++ [0])) cksum else cksum
  let c2 := if p.author.length > 0 then calcCksum (puzEncode (p.author ++ [0])) c1 else c1
  let c3 := if p.copyright.length > 0 then calcCksum (puzEncode (p.copyright ++ [0])) c2 else c2
  let c4 := p.clues.foldl (fun c clue => calcCksum (puzEncode clue) c) c3
  if strGE p.header.Version ver13 then
    if p.notes.length > 0 then calcCksum (puzEncode (p.notes ++ [0])) c4 else c4
  else c4

/-- Cksum (src/crosswd.go lines 420-427): the overall checksum, chaining one
accumulator over the header fields, then the solution grid bytes, then the
working grid bytes, then the text fields. -/
def Puzzle.Cksum (p : Puzzle) : Nat :=
  let cksum := p.HeaderCksum
  let cksum := calcCksum p.solution.elts cksum
  let cksum := calcCksum p.grid.elts cksum
  p.TextCksum cksum

/-- MagicCksum (src/crosswd.go lines 429-442): four fresh sub-checksums,
each XOR-masked against the bytes of "ICHEATED"; low bytes first, then high
bytes. -/
def Puzzle.MagicCksum (p : Puzzle) : List Nat :=
  let cs : List Nat :=
    [p.HeaderCksum, calcCksum p.solution.elts 0, calcCksum p.grid.elts 0, p.TextCksum 0]
  (List.range 4).map (fun i => (cs.getD i 0 % 256) ^^^ cksumMagicBytes.getD i 0) ++
    (List.range 4).map (fun i => (cs.getD i 0 / 256 % 256) ^^^ cksumMagicBytes.getD (i + 4) 0)

/-- Modelled from the spec claim C2: the overall checksum with the claimed
chaining order, working-grid bytes before solution-grid bytes. -/
def cksumClaimOrder (p : Puzzle) : Nat :=
  p.TextCksum (calcCksum p.solution.elts (calcCksum p.grid.elts p.HeaderCksum))

/-- A concrete 1x1 puzzle whose solution byte differs from its working-grid
byte, separating the two possible chaining orders of the overall checksum. -/
def pC2 : Puzzle :=
  { header := { Cksum := 0, Magic := magicBytes, HeaderCksum := 0
              , MagicCksum := [0, 0, 0, 0, 0, 0, 0, 0]
              , Version := [49, 46, 51, 0], Unused := [0, 0], Unknown := [0, 0]
              , Reserved := [0, 0, 0, 0, 0, 0, 0, 0, 0, 0, 0, 0]
              , Width := 1, Height := 1, NumClues := 0
              , BitMask1 := [0, 0], BitMask2 := [0, 0] }
  , grid := ⟨1, 1, [45]⟩, solution := ⟨1, 1, [65]⟩
  , title := [], author := [], copyright := [], clues := [], notes := [], extra := []
  , cellID := [], idCell := [], clueNumR := [], clueNumD := [] }

/-- C2 counterexample.  On a 1x1 puzzle with solution byte 65 and working
byte 45, the overall checksum computed by the code (header, then solution
bytes, then working bytes, then text) differs from the value claimed by the
spec (header, then working bytes, then solution bytes, then text): the code
yields 33229, the claimed chaining yields 33239. -/
theorem c2_counterexample : Puzzle.Cksum pC2 ≠ cksumClaimOrder pC2 := by decide

/-- C2 amended.  For every Puzzle the overall checksum Cksum equals
TextCksum applied to calcCksum(workingGridBytes, calcCksum(solutionGridBytes,
HeaderCksum)): the single 16-bit accumulator is chained in the order header
fields, then solution-grid bytes, then working-grid bytes, then
(conditionally) the text fields. -/
theorem c2_cksum_chain (p : Puzzle) :
    p.Cksum = p.TextCksum (calcCksum p.grid.elts (calcCksum p.solution.elts p.HeaderCksum)) :=
  rfl

/-- Modelled from the spec claim C6: the text checksum with Title+NUL only
if Title is non-empty, then Author+NUL and Copyright+NUL unconditionally,
then each clue without a NUL, then Notes+NUL if and only if the version
string is at least "1.3". -/
def textCksumClaim (p : Puzzle) (cksum : Nat) : Nat :=
  let c1 := if p.title.length > 0 then calcCksum (puzEncode (p.title ++ [0])) cksum else cksum
  let c2 := calcCksum (puzEncode (p.author ++ [0])) c1
  let c3 := calcCksum (puzEncode (p.copyright ++ [0])) c2
  let c4 := p.clues.foldl (fun c clue => calcCksum (puzEncode clue) c) c3
  if strGE p.header.Version ver13 then calcCksum (puzEncode (p.notes ++ [0])) c4 else c4

/-- C6 counterexample.  On a puzzle with empty Author, Copyright and Notes
and version "1.3", starting from seed 1, the code's TextCksum skips all
three fields and returns 1, while the claimed formula checksums a lone NUL
terminator for each of Author, Copyright and Notes and returns 8192. -/
theorem c6_counterexample : Puzzle.TextCksum pC2 1 ≠ textCksumClaim pC2 1 := by decide

/-- C6 amended, as a segment list in the spec's style: the text checksum
continues the rolling checksum successively over Title+NUL only if Title is
non-empty, Author+NUL only if Author is non-empty, Copyright+NUL only if
Copyright is non-empty, each clue's bytes without a NUL terminator, and
Notes+NUL if and only if the version string is at least "1.3" and Notes is
non-empty. -/
def textCksumAmended (p : Puzzle) (cksum : Nat) : Nat :=
  let segs : List (List Nat) :=
    (if p.title = [] then [] else [puzEncode (p.title ++ [0])]) ++
      (if p.author = [] then [] else [puzEncode (p.author ++ [0])]) ++
      (if p.copyright = [] then [] else [puzEncode (p.copyright ++ [0])]) ++
      p.clues.map puzEncode ++
      (if strGE p.header.Version ver13 ∧ p.notes ≠ [] then [puzEncode (p.notes ++ [0])] else [])
  segs.foldl (fun c s => calcCksum s c) cksum

/-- C6 amended.  For every Puzzle and seed, TextCksum continues the rolling
checksum from the seed successively over: Title+NUL only if Title is
non-empty, Author+NUL only if Author is non-empty, Copyright+NUL only if
Copyright is non-empty, then each clue's bytes without a NUL terminator, and
finally Notes+NUL if and only if the four-byte version string is
lexicographically at least "1.3" and Notes is non-empty. -/
theorem c6_textCksum_amended (p : Puzzle) (cksum : Nat) :
    p.TextCksum cksum = textCksumAmended p cksum := by
  unfold Puzzle.TextCksum textCksumAmended
  simp only [List.foldl_append, List.foldl_map]
  by_cases h1 : p.title = [] <;>
    by_cases h2 : p.author = [] <;>
      by_cases h3 : p.copyright = [] <;>
        by_cases h4 : strGE p.header.Version ver13 <;>
          by_cases h5 : p.notes = [] <;>
            simp [h1, h2, h3, h4, h5, List.length_pos, List.foldl_cons]

/-- The header as mutated at the top of Write (src/crosswd.go lines
223-225): the three checksum fields are recomputed and stored. -/
def finalHeader (p : Puzzle) : Header :=
  { p.header with
    HeaderCksum := p.HeaderCksum
    MagicCksum := p.MagicCksum
    Cksum := p.Cksum }

/-- Little-endian serialization of a Header, field by field in declaration
order, as binary.Write emits it. -/
def headerBytes (h : Header) : List Nat :=
  u16le h.Cksum ++ h.Magic ++ u16le h.HeaderCksum ++ h.MagicCksum ++ h.Version ++
    h.Unused ++ h.Unknown ++ h.Reserved ++ [h.Width, h.Height] ++ u16le h.NumClues ++
    h.BitMask1 ++ h.BitMask2

/-- The text section emitted by Write (src/crosswd.go lines 236-254): the
three metadata strings, every clue and the notes, each NUL-terminated and
encoded, then the raw Extra bytes. -/
def textBytes (p : Puzzle) : List Nat :=
  puzEncode (p.title ++ [0]) ++ puzEncode (p.author ++ [0]) ++
    puzEncode (p.copyright ++ [0]) ++
    (p.clues.map (fun clue => puzEncode (clue ++ [0]))).flatten ++
    puzEncode (p.notes ++ [0]) ++ p.extra

/-- Write (src/crosswd.go lines 222-257): recompute the header checksums,
then emit the header, solution grid bytes, working grid bytes and the text
section.  The byte-sink errors of the Go version are outside the model, so
the result is the emitted stream. -/
def writePuz (p : Puzzle) : List Nat :=
  headerBytes (finalHeader p) ++ p.solution.elts ++ p.grid.elts ++ textBytes p

/-- Read one byte from a stream. -/
def readU8 : List Nat → Option (Nat × List Nat)
  | [] => none
  | b :: bs => some (b, bs)

/-- Sequencing of parsing steps: feed the value and the remaining stream of
a successful read into the continuation, propagating failure. -/
def pstep {α β : Type} (o : Option (α × List Nat)) (f : α → List Nat → Option β) : Option β :=
  match o with
  | none => none
  | some (a, s) => f a s

/-- Read a little-endian uint16 from a stream. -/
def readU16 (bs : List Nat) : Option (Nat × List Nat) :=
  pstep (readU8 bs) fun b0 bs =>
  pstep (readU8 bs) fun b1 bs =>
  some (b0 + 256 * b1, bs)

/-- Read a fixed number of bytes from a stream, as io.ReadFull does. -/
def readBytes (n : Nat) (bs : List Nat) : Option (List Nat × List Nat) :=
  if n ≤ bs.length then some (bs.take n, bs.drop n) else none

/-- Decode the Header fields in declaration order, as binary.Read does. -/
def readHeader (bs : List Nat) : Option (Header × List Nat) :=
  pstep (readU16 bs) fun cksum bs =>
  pstep (readBytes 12 bs) fun magic bs =>
  pstep (readU16 bs) fun hcksum bs =>
  pstep (readBytes 8 bs) fun mcksum bs =>
  pstep (readBytes 4 bs) fun version bs =>
  pstep (readBytes 2 bs) fun unused bs =>
  pstep (readBytes 2 bs) fun unknown bs =>
  pstep (readBytes 12 bs) fun reserved bs =>
  pstep (readU8 bs) fun w bs =>
  pstep (readU8 bs) fun h bs =>
  pstep (readU16 bs) fun nc bs =>
  pstep (readBytes 2 bs) fun bm1 bs =>
  pstep (readBytes 2 bs) fun bm2 bs =>
  some (⟨cksum, magic, hcksum, mcksum, version, unused, unknown, reserved, w, h, nc, bm1, bm2⟩, bs)

/-- Split a byte list at its first NUL byte, when it has one. -/
def splitFirst : List Nat → Option (List Nat × List Nat)
  | [] => none
  | b :: bs =>
    if b = 0 then some ([], bs)
    else
      match splitFirst bs with
      | none => none
      | some (pre, post) => some (b :: pre, post)

/-- Go strings.SplitN on the NUL separator: at most n substrings, the last
one holding the unsplit remainder; n = 0 yields the empty list. -/
def splitNul : List Nat → Nat → List (List Nat)
  | _, 0 => []
  | s, 1 => [s]
  | s, n + 2 =>
    match splitFirst s with
    | none => [s]
    | some (pre, post) => pre :: splitNul post (n + 1)

/-- Go copy into make([]string, n): truncate or pad with empty strings to
exactly n fields. -/
def padTo (n : Nat) (xs : List (List Nat)) : List (List Nat) :=
  xs.take n ++ List.replicate (n - xs.length) []

/-- The puzzle value Read populates from a decoded header, the two grid
byte blocks and the raw text section (src/crosswd.go lines 199-212).
The uint16 sum 5+NumClues wraps mod 65536 as in Go. -/
def mkBody (h : Header) (sol wrk text : List Nat) : Puzzle :=
  let inFields := splitNul text ((5 + h.NumClues) % 65536)
  let outFields := padTo (4 + h.NumClues) inFields
  { header := h
  , grid := ⟨max h.Width 1, max h.Height 1, wrk⟩
  , solution := ⟨max h.Width 1, max h.Height 1, sol⟩
  , title := outFields.getD 0 []
  , author := outFields.getD 1 []
  , copyright := outFields.getD 2 []
  , clues := (List.range h.NumClues).map (fun i => outFields.getD (3 + i) [])
  , notes := outFields.getD (3 + h.NumClues) []
  , extra := if 4 + h.NumClues < inFields.length then inFields.getLastD [] else []
  , cellID := [], idCell := [], clueNumR := [], clueNumD := [] }

/-- The body of Read after the header (src/crosswd.go lines 186-212): both
grids through clamped NewGrid allocation, then the NUL-separated text
section.  For NumClues at least 65532 the Go code indexes past the end of
the wrapped-size outFields slice and panics, modelled as a failed read. -/
def readBody (h : Header) (bs : List Nat) : Option Puzzle :=
  pstep (readBytes (max h.Width 1 * max h.Height 1) bs) fun sol bs =>
  pstep (readBytes (max h.Width 1 * max h.Height 1) bs) fun wrk bs =>
  if h.NumClues ≥ 65532 then none
  else some (mkBody h sol wrk bs)

/-- The structural part of Read (src/crosswd.go lines 179-212): header,
magic check, grids and text section, before the checksum comparison. -/
def readRaw (bs : List Nat) : Except String Puzzle :=
  match readHeader bs with
  | none => .error "read error"
  | some (h, rest) =>
    if h.Magic = magicBytes then
      match readBody h rest with
      | none => .error "read error"
      | some p => .ok p
    else .error "invalid magic value in file"

/-- The final checksum comparison of Read (src/crosswd.go lines 213-217). -/
def cksumOK (p : Puzzle) : Bool :=
  decide (p.Cksum = p.header.Cksum) && decide (p.MagicCksum = p.header.MagicCksum) &&
    decide (p.HeaderCksum = p.header.HeaderCksum)

/-- Read (src/crosswd.go lines 179-219).  Fatal errors (short stream, bad
magic) are the error branch; a structurally valid parse returns the fully
populated puzzle together with the checksum flag, and the Go code returns
the distinct non-fatal Warning value exactly when the flag is false. -/
def readPuz (bs : List Nat) : Except String (Puzzle × Bool) :=
  match readRaw bs with
  | .error e => .error e
  | .ok p => .ok (p, cksumOK p)

/-- A puzzle whose Title contains code point 256, outside the single-byte
code page. -/
def pC7 : Puzzle := { pC2 with title := [256] }

/-- A puzzle whose Title contains code point 300: different declared
contents than pC7, same emitted bytes. -/
def pC7b : Puzzle := { pC2 with title := [300] }

/-- C7 counterexample.  Two puzzles with different non-encodable Titles
produce byte-for-byte identical Write output and identical text checksums,
and Write signals no failure: the encoding failure is swallowed, the Title
field and its NUL terminator are silently dropped from both the output and
the checksum input. -/
theorem c7_counterexample :
    writePuz pC7 = writePuz pC7b ∧ pC7.title ≠ pC7b.title ∧
      Puzzle.TextCksum pC7 0 = Puzzle.TextCksum pC7b 0 := by decide

/-- C7 amended.  For every text field containing a character outside code
points 0-255, the encoder wrapper silently returns the empty byte string,
so the field and its NUL terminator contribute no bytes to Write output and
leave every rolling-checksum accumulator unchanged; no failure is surfaced
to the caller. -/
theorem c7_encode_swallows (s : List Nat) (k : Nat)
    (h : s.all (fun c => c < 256) = false) :
    puzEncode (s ++ [0]) = [] ∧ calcCksum (puzEncode (s ++ [0])) k = k := by
  have hall : (s ++ [0]).all (fun c => c < 256) = false := by
    rw [List.all_append, h]
    rfl
  constructor
  · simp [puzEncode, hall]
  · simp [puzEncode, hall, calcCksum]

theorem c7_encode_swallows_witness :
    puzEncode ([256] ++ [0]) = [] ∧ calcCksum (puzEncode ([256] ++ [0])) 7 = 7 :=
  c7_encode_swallows [256] 7 (by decide)

/-- The combined row/column toroidal wrap inside NextCell (src/crosswd.go
lines 274-277), with Go truncated integer division and remainder:

  x := nextPos.X + ((nextPos.Y+size.Y)/size.Y - 1)
  y := nextPos.Y + ((nextPos.X+size.X)/size.X - 1)
  nextPos.X = (x%size.X + size.X) % size.X
  nextPos.Y = (y%size.Y + size.Y) % size.Y
-/
def wrapPos (size : Coord) (q : Coord) : Coord :=
  let x := q.x + ((q.y + size.y).tdiv size.y - 1)
  let y := q.y + ((q.x + size.x).tdiv size.x - 1)
  ⟨(x.tmod size.x + size.x).tmod size.x, (y.tmod size.y + size.y).tmod size.y⟩

/-- The for-loop of NextCell (src/crosswd.go lines 270-290), with explicit
fuel standing in for the unbounded Go loop: none means the loop has not
returned within the given number of iterations. -/
def nextCellLoop (g : Grid) (pos dlt : Coord) (doSkip : Bool) : Coord → Nat → Option Coord
  | _, 0 => none
  | cur, fuel + 1 =>
    let stepped : Coord := ⟨cur.x + dlt.x, cur.y + dlt.y⟩
    let np := if doSkip then wrapPos g.Size stepped else stepped
    match g.At np with
    | none => some pos
    | some c =>
      if c = Blank then
        if doSkip then nextCellLoop g pos dlt doSkip np fuel else some pos
      else some np

/-- NextCell (src/crosswd.go lines 262-291): the location one square from
pos in direction dir; with doSkip, blank squares are skipped and the grid
wraps around. -/
def Puzzle.NextCell (p : Puzzle) (pos : Coord) (dir : Direction) (doSkip : Bool)
    (fuel : Nat) : Option Coord :=
  if dir.Delta = ⟨0, 0⟩ then some pos
  else nextCellLoop p.grid pos dir.Delta doSkip pos fuel

/-- NextCell with doSkip = false, where the loop body always returns during
its first iteration, written as the total function it computes. -/
def Grid.nextCellNS (g : Grid) (pos : Coord) (dir : Direction) : Coord :=
  let dlt := dir.Delta
  if dlt = ⟨0, 0⟩ then pos
  else
    let np : Coord := ⟨pos.x + dlt.x, pos.y + dlt.y⟩
    match g.At np with
    | none => pos
    | some c => if c = Blank then pos else np

theorem nextCell_noskip_eq (p : Puzzle) (pos : Coord) (dir : Direction) (fuel : Nat) :
    p.NextCell pos dir false (fuel + 1) = some (p.grid.nextCellNS pos dir) := by
  unfold Puzzle.NextCell Grid.nextCellNS nextCellLoop
  by_cases hd : dir.Delta = (⟨0, 0⟩ : Coord)
  · simp [hd]
  · simp only [hd, if_false, if_neg hd]
    cases hAt : p.grid.At ⟨pos.x + dir.Delta.x, pos.y + dir.Delta.y⟩ with
    | none => simp [hAt]
    | some c =>
      by_cases hc : c = Blank <;> simp [hAt, hc]

/-- The fixpoint loop of WordExtent (src/crosswd.go lines 295-303) with
fuel. -/
def Grid.wordExtentF (g : Grid) (dir : Direction) : Coord → Nat → Coord
  | pos, 0 => pos
  | pos, n + 1 =>
    let e := g.nextCellNS pos dir
    if e = pos then pos else g.wordExtentF dir e n

/-- WordExtent (src/crosswd.go lines 295-303): the last cell of the word
that includes pos in direction dir.  The Go loop repeats NextCell with
doSkip = false until it stops moving; each move lands on an in-range
non-blank cell strictly further along dir, so width + height + 2 iterations
always reach the fixpoint. -/
def Grid.WordExtent (g : Grid) (pos : Coord) (dir : Direction) : Coord :=
  g.wordExtentF dir pos (g.width + g.height + 2)

/-- WordExtents (src/crosswd.go lines 307-313): first and last cells of the
word through pos along dir, ordered by coordinate. -/
def Grid.WordExtents (g : Grid) (pos : Coord) (dir : Direction) : Coord × Coord :=
  let start := g.WordExtent pos dir.Opposite
  let e := g.WordExtent pos dir
  if start.x > e.x ∨ start.y > e.y then (e, start) else (start, e)

/-- WordID (src/crosswd.go lines 326-328): the cellID map read at the
word-start cell; a missing key yields the Go zero value 0. -/
def Puzzle.WordID (p : Puzzle) (pos : Coord) (dir : Direction) : Nat :=
  (lookupA p.cellID (p.grid.WordExtent pos dir.Opposite)).getD 0

/-- The mutable state threaded through Setup (src/crosswd.go lines
349-375): the next word ID (starting at 1), the next clue index (starting
at 0) and the four derived maps. -/
structure SetupState where
  nextID : Nat
  cnum : Nat
  cellID : List (Coord × Nat)
  idCell : List (Nat × Coord)
  clueNumR : List (Nat × Nat)
  clueNumD : List (Nat × Nat)
deriving DecidableEq, Repr

/-- The cell-ID assignment inside Setup (src/crosswd.go lines 362-368):
reuse the ID a cell was already given, otherwise hand out the next one and
record it in both maps. -/
def assignID (pos : Coord) (st : SetupState) : Nat × SetupState :=
  match lookupA st.cellID pos with
  | some cid => (cid, st)
  | none =>
    (st.nextID,
      { st with
        cellID := (pos, st.nextID) :: st.cellID
        idCell := (st.nextID, pos) :: st.idCell
        nextID := st.nextID + 1 })

/-- The clue-number bookkeeping inside Setup (src/crosswd.go lines
369-370): p.clueNum[dir][cid] = cnum; cnum++. -/
def recordClue (dir : Direction) (cid : Nat) (st : SetupState) : SetupState :=
  match dir with
  | .Right => { st with clueNumR := (cid, st.cnum) :: st.clueNumR, cnum := st.cnum + 1 }
  | _ => { st with clueNumD := (cid, st.cnum) :: st.clueNumD, cnum := st.cnum + 1 }

/-- The per-direction body of Setup's inner loop (src/crosswd.go lines
359-372): when pos starts a word longer than one cell along dir, assign it
the next ID unless it already has one, and record the next clue index. -/
def setupDir (g : Grid) (pos : Coord) (dir : Direction) (st : SetupState) : SetupState :=
  let se := g.WordExtents pos dir
  if se.1 = pos ∧ se.2 ≠ pos then
    let cidSt := assignID pos st
    recordClue dir cidSt.1 cidSt.2
  else st

/-- The per-cell body of Setup's scan (src/crosswd.go lines 355-372):
skip out-of-range or blank cells, then handle Right and Down in order. -/
def setupCell (g : Grid) (st : SetupState) (pos : Coord) : SetupState :=
  match g.At pos with
  | none => st
  | some c => if c = Blank then st else setupDir g pos .Down (setupDir g pos .Right st)

/-- The row-major scan order of Setup: y from 0 to height-1, x from 0 to
width-1. -/
def scanCells (g : Grid) : List Coord :=
  ((List.range g.height).map
    (fun y => (List.range g.width).map (fun x => (⟨(x : Int), (y : Int)⟩ : Coord)))).flatten

/-- Setup (src/crosswd.go lines 349-375): initialize the word IDs and clue
numbering by a single row-major scan. -/
def Puzzle.Setup (p : Puzzle) : Puzzle :=
  let st0 : SetupState := ⟨1, 0, p.cellID, p.idCell, p.clueNumR, p.clueNumD⟩
  let st := (scanCells p.grid).foldl (setupCell p.grid) st0
  { p with cellID := st.cellID, idCell := st.idCell
         , clueNumR := st.clueNumR, clueNumD := st.clueNumD }

theorem nextCellLoop_sound (g : Grid) (pos dlt : Coord) (doSkip : Bool) :
    ∀ (fuel : Nat) (cur r : Coord),
      nextCellLoop g pos dlt doSkip cur fuel = some r →
        r = pos ∨ ∃ c, g.At r = some c ∧ c ≠ Blank := by
  intro fuel
  induction fuel with
  | zero => intro cur r h; exact absurd h (by simp [nextCellLoop])
  | succ k ih =>
    intro cur r h
    rw [nextCellLoop] at h
    split at h
    next hAt =>
      left
      exact (Option.some_inj.mp h).symm
    next c hAt =>
      by_cases hc : c = Blank
      · rw [if_pos hc] at h
        cases doSkip with
        | false => left; exact (Option.some_inj.mp h).symm
        | true => exact ih _ r h
      · rw [if_neg hc] at h
        right
        exact ⟨c, (Option.some_inj.mp h) ▸ hAt, hc⟩

/-- C10.  Whenever NextCell returns, its result is either exactly the input
pos or an in-bounds cell whose stored value is not Blank, for every input
position, every direction, both doSkip values and any fuel. -/
theorem c10_nextCell_sound (p : Puzzle) (pos : Coord) (dir : Direction) (doSkip : Bool)
    (fuel : Nat) (r : Coord) (h : p.NextCell pos dir doSkip fuel = some r) :
    r = pos ∨ ∃ c, p.grid.At r = some c ∧ c ≠ Blank := by
  rw [Puzzle.NextCell] at h
  by_cases hd : dir.Delta = (⟨0, 0⟩ : Coord)
  · rw [if_pos hd] at h
    left
    exact (Option.some_inj.mp h).symm
  · rw [if_neg hd] at h
    exact nextCellLoop_sound p.grid pos dir.Delta doSkip fuel pos r h

theorem c10_nextCell_sound_witness :
    (⟨0, 0⟩ : Coord) = ⟨0, 0⟩ ∨ ∃ c, pC2.grid.At ⟨0, 0⟩ = some c ∧ c ≠ Blank :=
  c10_nextCell_sound pC2 ⟨0, 0⟩ .Right true 3 ⟨0, 0⟩ (by decide)

/-- A 1x1 puzzle every cell of which is Blank: the pathological empty grid
of claim C4. -/
def pBlank : Puzzle := { pC2 with grid := ⟨1, 1, [46]⟩ }

theorem nextCellLoop_blank_none :
    ∀ n, nextCellLoop pBlank.grid ⟨0, 0⟩ ⟨1, 0⟩ true ⟨0, 0⟩ n = none := by
  intro n
  induction n with
  | zero => rfl
  | succ k ih => exact ih

/-- C4.  On the all-Blank 1x1 grid, NextCell with doSkip = true and
direction Right never returns, whatever the loop is allowed to run for: the
toroidal wrap keeps every visited position in bounds, every cell is Blank,
so the Go for-loop never exits.  The spec instead requires termination with
the original pos, so the code contradicts the claim on this input. -/
theorem c4_allBlank_never_returns :
    ∀ fuel, Puzzle.NextCell pBlank ⟨0, 0⟩ .Right true fuel = none := by
  intro fuel
  rw [Puzzle.NextCell, if_neg (by decide)]
  exact nextCellLoop_blank_none fuel

/-- The 3x3 grid of claim C8: every cell non-blank except a Blank at the
center (1,1). -/
def p8 : Puzzle :=
  { pC2 with grid := ⟨3, 3, [65, 65, 65, 65, 46, 65, 65, 65, 65]⟩ }

/-- C8 counterexample.  On the C8 scenario grid, Setup also assigns an ID
to cell (2,0), which starts the length-3 down word of column 2 and is not
the start of either length-3 across word, so IDs are not assigned only to
the two across starts. -/
theorem c8_counterexample :
    lookupA (Puzzle.Setup p8).cellID ⟨2, 0⟩ = some 2 ∧
      (⟨2, 0⟩ : Coord) ≠ ⟨0, 0⟩ ∧ (⟨2, 0⟩ : Coord) ≠ ⟨0, 2⟩ := by decide

/-- C8 amended.  On the C8 scenario grid, Setup assigns word IDs to exactly
three cells: (0,0) with ID 1 (start of the across word of row 0 and of the
down word of column 0), (2,0) with ID 2 (start of the down word of column
2), and (0,2) with ID 3 (start of the across word of row 2); no cell all of
whose words have length 1 receives an ID. -/
theorem c8_setup_ids :
    (Puzzle.Setup p8).cellID =
      [(⟨0, 2⟩, 3), (⟨2, 0⟩, 2), (⟨0, 0⟩, 1)] := by decide

/-- A cell starts a word of length at least 2 when Setup's guard holds for
it in one of the two scanned directions. -/
def startsLongWord (g : Grid) (c : Coord) : Prop :=
  ((g.WordExtents c .Right).1 = c ∧ (g.WordExtents c .Right).2 ≠ c) ∨
    ((g.WordExtents c .Down).1 = c ∧ (g.WordExtents c .Down).2 ≠ c)

instance startsLongWordDec (g : Grid) (c : Coord) : Decidable (startsLongWord g c) := by
  unfold startsLongWord
  infer_instance

theorem recordClue_cellID (dir : Direction) (cid : Nat) (st : SetupState) :
    (recordClue dir cid st).cellID = st.cellID := by
  cases dir <;> rfl

theorem assignID_cellID_mem (pos : Coord) (st : SetupState) (q : Coord) (i : Nat)
    (h : (q, i) ∈ (assignID pos st).2.cellID) :
    q = pos ∨ (q, i) ∈ st.cellID := by
  unfold assignID at h
  cases hl : lookupA st.cellID pos with
  | some cid =>
    rw [hl] at h
    right
    exact h
  | none =>
    rw [hl] at h
    rcases List.mem_cons.mp h with h1 | h1
    · left
      exact congrArg Prod.fst h1
    · right
      exact h1

theorem setupDir_inv (g : Grid) (pos : Coord) (dir : Direction) (st : SetupState)
    (hdir : dir = .Right ∨ dir = .Down)
    (hinv : ∀ q i, (q, i) ∈ st.cellID → startsLongWord g q) :
    ∀ q i, (q, i) ∈ (setupDir g pos dir st).cellID → startsLongWord g q := by
  intro q i hq
  unfold setupDir at hq
  by_cases hcond : (g.WordExtents pos dir).1 = pos ∧ (g.WordExtents pos dir).2 ≠ pos
  · rw [if_pos hcond, recordClue_cellID] at hq
    rcases assignID_cellID_mem pos st q i hq with h1 | h1
    · subst h1
      rcases hdir with hd | hd <;> subst hd
      · exact Or.inl hcond
      · exact Or.inr hcond
    · exact hinv q i h1
  · rw [if_neg hcond] at hq
    exact hinv q i hq

theorem setupCell_inv (g : Grid) (st : SetupState) (pos : Coord)
    (hinv : ∀ q i, (q, i) ∈ st.cellID → startsLongWord g q) :
    ∀ q i, (q, i) ∈ (setupCell g st pos).cellID → startsLongWord g q := by
  cases hA : g.At pos with
  | none =>
    simp only [setupCell, hA]
    exact hinv
  | some c =>
    by_cases hc : c = Blank
    · simp only [setupCell, hA, if_pos hc]
      exact hinv
    · simp only [setupCell, hA, if_neg hc]
      exact setupDir_inv g pos .Down _ (Or.inr rfl)
        (setupDir_inv g pos .Right st (Or.inl rfl) hinv)

theorem setupFold_inv (g : Grid) (cells : List Coord) (st : SetupState)
    (hinv : ∀ q i, (q, i) ∈ st.cellID → startsLongWord g q) :
    ∀ q i, (q, i) ∈ (cells.foldl (setupCell g) st).cellID → startsLongWord g q := by
  induction cells generalizing st with
  | nil => exact hinv
  | cons a rest ih =>
    rw [List.foldl_cons]
    exact ih (setupCell g st a) (setupCell_inv g st a hinv)

theorem lookupA_eq_none {α β : Type} [DecidableEq α] (l : List (α × β)) (k : α)
    (h : ∀ pair ∈ l, pair.1 ≠ k) : lookupA l k = none := by
  induction l with
  | nil => rfl
  | cons a rest ih =>
    rw [lookupA]
    rw [if_neg (h a (List.mem_cons_self a rest))]
    exact ih (fun pair hp => h pair (List.mem_cons_of_mem a hp))

/-- C9 amended.  After Setup on a puzzle with a fresh (empty) cellID map,
WordID(pos, dir) returns the Go zero value 0 whenever the word-start cell
WordExtent(pos, dir.Opposite()) does not start a word of length at least 2
in either scanned direction (Right or Down); a cell whose word along dir
has length 1 may still carry a non-zero ID when it starts a longer word
along the other axis. -/
theorem c9_wordID_amended (p : Puzzle) (pos : Coord) (dir : Direction)
    (hfresh : p.cellID = [])
    (h : ¬ startsLongWord p.grid (p.grid.WordExtent pos dir.Opposite)) :
    (p.Setup).WordID pos dir = 0 := by
  unfold Puzzle.WordID
  have hgrid : (p.Setup).grid = p.grid := rfl
  rw [hgrid]
  have hinv : ∀ q i, (q, i) ∈ (p.Setup).cellID → startsLongWord p.grid q := by
    intro q i hq
    unfold Puzzle.Setup at hq
    refine setupFold_inv p.grid (scanCells p.grid) _ ?_ q i hq
    intro q' i' hq'
    rw [hfresh] at hq'
    exact absurd hq' (List.not_mem_nil _)
  rw [lookupA_eq_none _ _ ?hne]
  · rfl
  case hne =>
    intro pair hp hk
    exact h (hk ▸ hinv pair.1 pair.2 (by rwa [← Prod.mk.eta (p := pair)] at hp))

/-- The 3x3 grid of the C9 counterexample: non-blank cells only at (1,0)
and (1,1), so the across word at (1,0) has length 1 while the down word
starting there has length 2. -/
def p9 : Puzzle :=
  { pC2 with grid := ⟨3, 3, [46, 65, 46, 46, 65, 46, 46, 46, 46]⟩ }

/-- C9 counterexample.  After Setup on the p9 grid, the across word
containing (1,0) has length 1 (both extents are (1,0) itself), yet
WordID((1,0), Right) returns 1, not the zero sentinel, because (1,0) starts
the length-2 down word and cell IDs are shared across directions. -/
theorem c9_counterexample :
    (Puzzle.Setup p9).WordID ⟨1, 0⟩ .Right = 1 ∧
      Grid.WordExtents p9.grid ⟨1, 0⟩ .Right = (⟨1, 0⟩, ⟨1, 0⟩) := by decide

theorem c9_wordID_amended_witness : (Puzzle.Setup p9).WordID ⟨1, 1⟩ .Right = 0 :=
  c9_wordID_amended p9 ⟨1, 1⟩ .Right rfl (by decide)

/-- Well-formedness of a Header: numeric fields within their Go integer
types, byte-array fields of their declared lengths.  Every header produced
by readHeader from a stream of bytes below 256 satisfies it. -/
def Header.WF (h : Header) : Prop :=
  h.Cksum < 65536 ∧ h.Magic.length = 12 ∧ h.HeaderCksum < 65536 ∧
    h.MagicCksum.length = 8 ∧ h.Version.length = 4 ∧ h.Unused.length = 2 ∧
    h.Unknown.length = 2 ∧ h.Reserved.length = 12 ∧ h.Width < 256 ∧ h.Height < 256 ∧
    h.NumClues < 65536 ∧ h.BitMask1.length = 2 ∧ h.BitMask2.length = 2

theorem u16le_length (n : Nat) : (u16le n).length = 2 := rfl

theorem readU8_eq {bs : List Nat} {v : Nat} {rest : List Nat}
    (h : readU8 bs = some (v, rest)) : bs = v :: rest := by
  cases bs with
  | nil => exact absurd h (by simp [readU8])
  | cons b t =>
    have : b = v ∧ t = rest := by
      have := Option.some_inj.mp h
      exact ⟨congrArg Prod.fst this, congrArg Prod.snd this⟩
    rw [this.1, this.2]

theorem readU16_eq {bs : List Nat} {v : Nat} {rest : List Nat}
    (hb : ∀ b ∈ bs, b < 256) (h : readU16 bs = some (v, rest)) :
    bs = u16le v ++ rest ∧ v < 65536 := by
  cases bs with
  | nil => exact absurd h (by simp [readU16, readU8, pstep])
  | cons b0 t =>
    cases t with
    | nil => exact absurd h (by simp [readU16, readU8, pstep])
    | cons b1 t2 =>
      have hv : b0 + 256 * b1 = v ∧ t2 = rest := by
        have := Option.some_inj.mp h
        exact ⟨congrArg Prod.fst this, congrArg Prod.snd this⟩
      have hb0 : b0 < 256 := hb b0 (by simp)
      have hb1 : b1 < 256 := hb b1 (by simp)
      constructor
      · rw [← hv.1, ← hv.2, u16le]
        have e0 : (b0 + 256 * b1) % 256 = b0 := by omega
        have e1 : (b0 + 256 * b1) / 256 % 256 = b1 := by omega
        rw [e0, e1]
        rfl
      · omega

theorem readU16_readback (v : Nat) (t : List Nat) (hv : v < 65536) :
    readU16 (u16le v ++ t) = some (v, t) := by
  have : v % 256 + 256 * (v / 256 % 256) = v := by omega
  simp [readU16, u16le, readU8, pstep, this]

theorem readBytes_eq {n : Nat} {bs xs rest : List Nat}
    (h : readBytes n bs = some (xs, rest)) :
    bs = xs ++ rest ∧ xs.length = n := by
  unfold readBytes at h
  by_cases hn : n ≤ bs.length
  · rw [if_pos hn] at h
    have hx : bs.take n = xs ∧ bs.drop n = rest := by
      have := Option.some_inj.mp h
      exact ⟨congrArg Prod.fst this, congrArg Prod.snd this⟩
    refine ⟨by rw [← hx.1, ← hx.2, List.take_append_drop], ?_⟩
    rw [← hx.1]
    exact List.length_take_of_le hn
  · rw [if_neg hn] at h
    exact absurd h (by simp)

theorem readBytes_readback (n : Nat) (xs t : List Nat) (hx : xs.length = n) :
    readBytes n (xs ++ t) = some (xs, t) := by
  unfold readBytes
  rw [if_pos (by simp [hx])]
  rw [List.take_append_of_le_length (by omega), List.drop_append_of_le_length (by omega)]
  simp [hx]


theorem pstep_eq_some {α β : Type} {o : Option (α × List Nat)} {f : α → List Nat → Option β}
    {b : β} : pstep o f = some b ↔ ∃ a s, o = some (a, s) ∧ f a s = some b := by
  cases o with
  | none => simp [pstep]
  | some p =>
    cases p with
    | mk a s =>
      simp only [pstep, Option.some_inj]
      constructor
      · intro hf
        exact ⟨a, s, rfl, hf⟩
      · rintro ⟨a1, s1, heq, hf⟩
        rw [show a = a1 from congrArg Prod.fst heq, show s = s1 from congrArg Prod.snd heq]
        exact hf

theorem readHeader_eq {bs : List Nat} {hd : Header} {rest : List Nat}
    (hb : ∀ b ∈ bs, b < 256) (h : readHeader bs = some (hd, rest)) :
    bs = headerBytes hd ++ rest ∧ hd.WF := by
  rw [readHeader] at h
  rw [pstep_eq_some] at h
  obtain ⟨cksum, s1, h1, h⟩ := h
  rw [pstep_eq_some] at h
  obtain ⟨magic, s2, h2, h⟩ := h
  rw [pstep_eq_some] at h
  obtain ⟨hcksum, s3, h3, h⟩ := h
  rw [pstep_eq_some] at h
  obtain ⟨mcksum, s4, h4, h⟩ := h
  rw [pstep_eq_some] at h
  obtain ⟨version, s5, h5, h⟩ := h
  rw [pstep_eq_some] at h
  obtain ⟨unused, s6, h6, h⟩ := h
  rw [pstep_eq_some] at h
  obtain ⟨unknown, s7, h7, h⟩ := h
  rw [pstep_eq_some] at h
  obtain ⟨reserved, s8, h8, h⟩ := h
  rw [pstep_eq_some] at h
  obtain ⟨w, s9, h9, h⟩ := h
  rw [pstep_eq_some] at h
  obtain ⟨ht, s10, h10, h⟩ := h
  rw [pstep_eq_some] at h
  obtain ⟨nc, s11, h11, h⟩ := h
  rw [pstep_eq_some] at h
  obtain ⟨bm1, s12, h12, h⟩ := h
  rw [pstep_eq_some] at h
  obtain ⟨bm2, s13, h13, h⟩ := h
  obtain ⟨hhd, hrest⟩ : (⟨cksum, magic, hcksum, mcksum, version, unused, unknown,
      reserved, w, ht, nc, bm1, bm2⟩ : Header) = hd ∧ s13 = rest := by
    have := Option.some_inj.mp h
    exact ⟨congrArg Prod.fst this, congrArg Prod.snd this⟩
  subst hhd
  subst hrest
  obtain ⟨e1, w1⟩ := readU16_eq hb h1
  have hb1 : ∀ b ∈ s1, b < 256 := fun b hm => hb b (e1 ▸ List.mem_append_right _ hm)
  obtain ⟨e2, l2⟩ := readBytes_eq h2
  have hb2 : ∀ b ∈ s2, b < 256 := fun b hm => hb1 b (e2 ▸ List.mem_append_right _ hm)
  obtain ⟨e3, w3⟩ := readU16_eq hb2 h3
  have hb3 : ∀ b ∈ s3, b < 256 := fun b hm => hb2 b (e3 ▸ List.mem_append_right _ hm)
  obtain ⟨e4, l4⟩ := readBytes_eq h4
  have hb4 : ∀ b ∈ s4, b < 256 := fun b hm => hb3 b (e4 ▸ List.mem_append_right _ hm)
  obtain ⟨e5, l5⟩ := readBytes_eq h5
  have hb5 : ∀ b ∈ s5, b < 256 := fun b hm => hb4 b (e5 ▸ List.mem_append_right _ hm)
  obtain ⟨e6, l6⟩ := readBytes_eq h6
  have hb6 : ∀ b ∈ s6, b < 256 := fun b hm => hb5 b (e6 ▸ List.mem_append_right _ hm)
  obtain ⟨e7, l7⟩ := readBytes_eq h7
  have hb7 : ∀ b ∈ s7, b < 256 := fun b hm => hb6 b (e7 ▸ List.mem_append_right _ hm)
  obtain ⟨e8, l8⟩ := readBytes_eq h8
  have hb8 : ∀ b ∈ s8, b < 256 := fun b hm => hb7 b (e8 ▸ List.mem_append_right _ hm)
  have e9 : s8 = w :: s9 := readU8_eq h9
  have hw : w < 256 := hb8 w (e9 ▸ List.mem_cons_self w s9)
  have hb9 : ∀ b ∈ s9, b < 256 := fun b hm => hb8 b (e9 ▸ List.mem_cons_of_mem _ hm)
  have e10 : s9 = ht :: s10 := readU8_eq h10
  have hht : ht < 256 := hb9 ht (e10 ▸ List.mem_cons_self ht s10)
  have hb10 : ∀ b ∈ s10, b < 256 := fun b hm => hb9 b (e10 ▸ List.mem_cons_of_mem _ hm)
  obtain ⟨e11, w11⟩ := readU16_eq hb10 h11
  obtain ⟨e12, l12⟩ := readBytes_eq h12
  obtain ⟨e13, l13⟩ := readBytes_eq h13
  constructor
  · rw [e1, e2, e3, e4, e5, e6, e7, e8, e9, e10, e11, e12, e13, headerBytes]
    simp [List.append_assoc]
  · exact ⟨w1, l2, w3, l4, l5, l6, l7, l8, hw, hht, w11, l12, l13⟩

theorem pstep_some {α β : Type} (a : α) (s : List Nat) (f : α → List Nat → Option β) :
    pstep (some (a, s)) f = f a s := rfl

theorem readU8_cons (b : Nat) (t : List Nat) : readU8 (b :: t) = some (b, t) := rfl

theorem readHeader_readback (hd : Header) (t : List Nat) (hwf : hd.WF) :
    readHeader (headerBytes hd ++ t) = some (hd, t) := by
  obtain ⟨w1, l2, w3, l4, l5, l6, l7, l8, w9, w10, w11, l12, l13⟩ := hwf
  rw [readHeader, headerBytes]
  simp only [List.append_assoc, List.cons_append, List.nil_append]
  simp only [readU16_readback _ _ w1, readU16_readback _ _ w3, readU16_readback _ _ w11,
    readBytes_readback _ _ _ l2, readBytes_readback _ _ _ l4, readBytes_readback _ _ _ l5,
    readBytes_readback _ _ _ l6, readBytes_readback _ _ _ l7, readBytes_readback _ _ _ l8,
    readBytes_readback _ _ _ l12, readBytes_readback _ _ _ l13,
    readU8_cons, pstep_some]


theorem splitFirst_none : ∀ {s : List Nat}, splitFirst s = none → ∀ b ∈ s, b ≠ 0 := by
  intro s
  induction s with
  | nil => intro _ b hb; exact absurd hb (List.not_mem_nil b)
  | cons a t ih =>
    intro h b hb
    rw [splitFirst] at h
    by_cases ha : a = 0
    · rw [if_pos ha] at h; exact absurd h (by simp)
    · rw [if_neg ha] at h
      rcases List.mem_cons.mp hb with hb1 | hb1
      · exact hb1 ▸ ha
      · cases hsp : splitFirst t with
        | none => exact ih hsp b hb1
        | some pr => rw [hsp] at h; cases pr; simp at h

theorem splitFirst_some : ∀ {s pre post : List Nat}, splitFirst s = some (pre, post) →
    s = pre ++ 0 :: post ∧ ∀ b ∈ pre, b ≠ 0 := by
  intro s
  induction s with
  | nil => intro pre post h; exact absurd h (by simp [splitFirst])
  | cons a t ih =>
    intro pre post h
    rw [splitFirst] at h
    by_cases ha : a = 0
    · rw [if_pos ha] at h
      have := Option.some_inj.mp h
      have hpre : pre = [] := (congrArg Prod.fst this).symm
      have hpost : post = t := (congrArg Prod.snd this).symm
      subst hpre; subst hpost; subst ha
      exact ⟨rfl, by intro b hb; exact absurd hb (List.not_mem_nil b)⟩
    · rw [if_neg ha] at h
      cases hsp : splitFirst t with
      | none => rw [hsp] at h; exact absurd h (by simp)
      | some pr =>
        cases pr with
        | mk p1 p2 =>
          rw [hsp] at h
          simp only [Option.some_inj] at h
          have hpre : a :: p1 = pre := congrArg Prod.fst h
          have hpost : p2 = post := congrArg Prod.snd h
          subst hpre; subst hpost
          obtain ⟨e, hn⟩ := ih hsp
          constructor
          · rw [List.cons_append, ← e]
          · intro b hb
            rcases List.mem_cons.mp hb with hb1 | hb1
            · exact hb1 ▸ ha
            · exact hn b hb1

theorem splitFirst_append : ∀ {f : List Nat}, (∀ b ∈ f, b ≠ 0) →
    ∀ (rest : List Nat), splitFirst (f ++ 0 :: rest) = some (f, rest) := by
  intro f
  induction f with
  | nil => intro _ rest; simp [splitFirst]
  | cons a t ih =>
    intro hf rest
    have ha : a ≠ 0 := hf a (List.mem_cons_self a t)
    rw [List.cons_append, splitFirst, if_neg ha,
      ih (fun b hb => hf b (List.mem_cons_of_mem a hb)) rest]

def joinNul : List (List Nat) → List Nat
  | [] => []
  | [f] => f
  | f :: g :: fs => f ++ 0 :: joinNul (g :: fs)

theorem joinNul_cons {f : List Nat} {fs : List (List Nat)} (h : fs ≠ []) :
    joinNul (f :: fs) = f ++ 0 :: joinNul fs := by
  cases fs with
  | nil => exact absurd rfl h
  | cons g gs => rfl

theorem splitNul_ne_nil (s : List Nat) (n : Nat) : splitNul s (n + 1) ≠ [] := by
  cases n with
  | zero => simp [splitNul]
  | succ m =>
    rw [splitNul]
    cases splitFirst s with
    | none => simp
    | some pr => cases pr; simp

theorem joinNul_splitNul : ∀ (n : Nat) (s : List Nat), joinNul (splitNul s (n + 1)) = s := by
  intro n
  induction n with
  | zero => intro s; rfl
  | succ m ih =>
    intro s
    rw [splitNul]
    cases hsp : splitFirst s with
    | none => rfl
    | some pr =>
      cases pr with
      | mk pre post =>
        rw [joinNul_cons (splitNul_ne_nil post m), ih post]
        exact (splitFirst_some hsp).1.symm

theorem splitNul_readback : ∀ (fields : List (List Nat)) (extra : List Nat),
    (∀ f ∈ fields, ∀ b ∈ f, b ≠ 0) →
    splitNul (joinNul (fields ++ [extra])) (fields.length + 1) = fields ++ [extra] := by
  intro fields
  induction fields with
  | nil => intro extra _; rfl
  | cons f fs ih =>
    intro extra hn
    have hne : fs ++ [extra] ≠ [] := by simp
    rw [List.cons_append, joinNul_cons hne, List.length_cons]
    rw [splitNul]
    rw [splitFirst_append (hn f (List.mem_cons_self f fs)) (joinNul (fs ++ [extra]))]
    show f :: splitNul (joinNul (fs ++ [extra])) (fs.length + 1) = f :: (fs ++ [extra])
    rw [ih extra (fun g hg b hb => hn g (List.mem_cons_of_mem f hg) b hb)]

theorem splitNul_getD_noNul : ∀ (cap : Nat) (s : List Nat) (i : Nat), i + 1 < cap →
    ∀ b ∈ (splitNul s cap).getD i [], b ≠ 0 := by
  intro cap
  induction cap with
  | zero => intro s i hi; omega
  | succ m ih =>
    intro s i hi
    cases m with
    | zero => omega
    | succ k =>
      rw [splitNul]
      cases hsp : splitFirst s with
      | none =>
        cases i with
        | zero => exact splitFirst_none hsp
        | succ j => intro b hb; simp [List.getD] at hb
      | some pr =>
        cases pr with
        | mk pre post =>
          cases i with
          | zero => exact (splitFirst_some hsp).2
          | succ j =>
            intro b hb
            have : (splitNul post (k + 1)).getD j [] = ((pre :: splitNul post (k + 1)).getD (j + 1) []) := rfl
            exact ih post j (by omega) b (this ▸ hb)

theorem splitNul_mem_sub : ∀ (cap : Nat) (s : List Nat) (f : List Nat),
    f ∈ splitNul s cap → ∀ b ∈ f, b ∈ s := by
  intro cap
  induction cap with
  | zero => intro s f hf; exact absurd hf (List.not_mem_nil f)
  | succ m ih =>
    intro s f hf
    cases m with
    | zero =>
      have : f = s := by
        rcases List.mem_cons.mp hf with h | h
        · exact h
        · exact absurd h (List.not_mem_nil f)
      intro b hb; exact this ▸ hb
    | succ k =>
      rw [splitNul] at hf
      cases hsp : splitFirst s with
      | none =>
        rw [hsp] at hf
        have : f = s := by
          rcases List.mem_cons.mp hf with h | h
          · exact h
          · exact absurd h (List.not_mem_nil f)
        intro b hb; exact this ▸ hb
      | some pr =>
        cases pr with
        | mk pre post =>
          rw [hsp] at hf
          have hs := (splitFirst_some hsp).1
          rcases List.mem_cons.mp hf with h | h
          · intro b hb
            rw [hs]
            exact List.mem_append_left _ (h ▸ hb)
          · intro b hb
            rw [hs]
            exact List.mem_append_right _ (List.mem_cons_of_mem 0 (ih post f h b hb))

theorem splitNul_length_le : ∀ (cap : Nat) (s : List Nat), (splitNul s cap).length ≤ cap := by
  intro cap
  induction cap with
  | zero => intro s; simp [splitNul]
  | succ m ih =>
    intro s
    cases m with
    | zero => simp [splitNul]
    | succ k =>
      rw [splitNul]
      cases splitFirst s with
      | none => simp
      | some pr =>
        cases pr with
        | mk pre post =>
          have := ih post
          simp only [List.length_cons]
          omega

theorem map_range_getD_take {α : Type} (d : α) :
    ∀ (l : List α) (n : Nat), n ≤ l.length →
      (List.range n).map (fun i => l.getD i d) = l.take n := by
  intro l
  induction l with
  | nil =>
    intro n hn
    have : n = 0 := by simpa using hn
    subst this; rfl
  | cons a t ih =>
    intro n hn
    cases n with
    | zero => rfl
    | succ m =>
      rw [List.range_succ_eq_map, List.map_cons, List.map_map]
      have : ((fun i => (a :: t).getD i d) ∘ Nat.succ) = fun i => t.getD i d := by
        funext i; rfl
      rw [this]
      rw [ih m (by simpa using hn)]
      rfl

theorem getD_mem_or_default {α : Type} (l : List α) (i : Nat) (d : α) :
    l.getD i d ∈ l ∨ l.getD i d = d := by
  by_cases hi : i < l.length
  · left
    rw [List.getD_eq_getElem l d hi]
    exact List.getElem_mem hi
  · right
    exact List.getD_eq_default l d (by omega)

theorem padTo_getD (n : Nat) (xs : List (List Nat)) (i : Nat) (hi : i < n) :
    (padTo n xs).getD i [] = xs.getD i [] := by
  unfold padTo
  by_cases hx : i < xs.length
  · have htk : i < (xs.take n).length := by
      rw [List.length_take]; omega
    have htot : i < (xs.take n ++ List.replicate (n - xs.length) ([] : List Nat)).length := by
      rw [List.length_append]; omega
    rw [List.getD_eq_getElem _ _ htot, List.getElem_append_left htk, List.getElem_take,
      List.getD_eq_getElem _ _ hx]
  · have hxl : xs.length ≤ i := by omega
    have hR : xs.getD i [] = ([] : List Nat) := List.getD_eq_default _ _ hxl
    rw [hR]
    by_cases htot : i < (xs.take n ++ List.replicate (n - xs.length) ([] : List Nat)).length
    · have hlen : (xs.take n).length ≤ i := by
        rw [List.length_take]; omega
      rw [List.getD_eq_getElem _ _ htot, List.getElem_append_right hlen,
        List.getElem_replicate]
    · exact List.getD_eq_default _ _ (by omega)

theorem fields_eta (l : List (List Nat)) (n : Nat) (hl : l.length = 4 + n) :
    [l.getD 0 [], l.getD 1 [], l.getD 2 []] ++
      (List.range n).map (fun i => l.getD (3 + i) []) ++ [l.getD (3 + n) []] = l := by
  obtain ⟨a, l1, rfl⟩ : ∃ a l1, l = a :: l1 := by
    cases l with
    | nil => simp at hl; omega
    | cons a t => exact ⟨a, t, rfl⟩
  obtain ⟨b, l2, rfl⟩ : ∃ b l2, l1 = b :: l2 := by
    cases l1 with
    | nil => simp at hl; omega
    | cons b t => exact ⟨b, t, rfl⟩
  obtain ⟨c, rest, rfl⟩ : ∃ c rest, l2 = c :: rest := by
    cases l2 with
    | nil => simp at hl; omega
    | cons c t => exact ⟨c, t, rfl⟩
  have hrl : rest.length = n + 1 := by
    simp only [List.length_cons] at hl
    omega
  have hmap : ∀ i : Nat, (a :: b :: c :: rest).getD (3 + i) [] = rest.getD i [] := by
    intro i
    rw [Nat.add_comm 3 i]
    rfl
  simp only [hmap]
  rw [map_range_getD_take ([] : List Nat) rest n (by omega)]
  have hn : n < rest.length := by omega
  rw [List.getD_eq_getElem _ _ hn]
  have : rest.take n ++ [rest[n]] = rest.take (n + 1) := List.take_concat_get' rest n hn
  simp only [List.cons_append, List.nil_append, List.append_assoc]
  rw [this, ← hrl, List.take_length]
  rfl

theorem joinNul_append_map (xs : List (List Nat)) (e : List Nat) :
    joinNul (xs ++ [e]) = (xs.map (fun f => f ++ [0])).flatten ++ e := by
  induction xs with
  | nil => rfl
  | cons f fs ih =>
    rw [List.cons_append, joinNul_cons (by simp), ih, List.map_cons, List.flatten_cons]
    simp

theorem getLastD_eq_getLast {α : Type} (l : List α) (d : α) (h : l ≠ []) :
    l.getLastD d = l.getLast h := by
  cases l with
  | nil => exact absurd rfl h
  | cons a t =>
    rw [List.getLast_eq_getLastD]
    induction t generalizing a with
    | nil => rfl
    | cons b t2 ih =>
      cases hgl : (b :: t2).getLast? with
      | none => simp at hgl
      | some x =>
        show ((b :: t2).getLast?).getD d = ((b :: t2).getLast?).getD a
        rw [hgl]
        rfl

theorem puzEncode_id {s : List Nat} (h : ∀ b ∈ s, b < 256) : puzEncode s = s := by
  unfold puzEncode
  rw [if_pos]
  rw [List.all_eq_true]
  intro x hx
  exact decide_eq_true (h x hx)

theorem puzEncode_append_nul {s : List Nat} (h : ∀ b ∈ s, b < 256) :
    puzEncode (s ++ [0]) = s ++ [0] := by
  apply puzEncode_id
  intro b hb
  rcases List.mem_append.mp hb with h1 | h1
  · exact h b h1
  · have : b = 0 := by simpa using h1
    omega

theorem splitNul_getD_sub (cap : Nat) (s : List Nat) (i : Nat)
    (hb : ∀ b ∈ s, b < 256) : ∀ b ∈ (splitNul s cap).getD i [], b < 256 := by
  intro b hbm
  rcases getD_mem_or_default (splitNul s cap) i [] with hm | hm
  · exact hb b (splitNul_mem_sub cap s _ hm b hbm)
  · rw [hm] at hbm
    exact absurd hbm (List.not_mem_nil b)

theorem getD_append_left {α : Type} (l t : List α) (i : Nat) (d : α) (hi : i < l.length) :
    (l ++ t).getD i d = l.getD i d := by
  have htot : i < (l ++ t).length := by rw [List.length_append]; omega
  rw [List.getD_eq_getElem _ _ htot, List.getElem_append_left hi, List.getD_eq_getElem _ _ hi]

theorem getD_append_boundary {α : Type} (l t : List α) (d : α) (hne : t ≠ []) :
    (l ++ t).getD l.length d = t.getD 0 d := by
  have h0 : 0 < t.length := List.length_pos.mpr hne
  have htot : l.length < (l ++ t).length := by rw [List.length_append]; omega
  rw [List.getD_eq_getElem _ _ htot, List.getElem_append_right (le_refl l.length),
    List.getD_eq_getElem _ _ h0]
  congr 1
  omega

theorem getD_take {α : Type} (l : List α) (m i : Nat) (d : α) (hi : i < m) :
    (l.take m).getD i d = l.getD i d := by
  by_cases hl : i < l.length
  · have htk : i < (l.take m).length := by rw [List.length_take]; omega
    rw [List.getD_eq_getElem _ _ htk, List.getElem_take, List.getD_eq_getElem _ _ hl]
  · have h1 : (l.take m).length ≤ i := by rw [List.length_take]; omega
    rw [List.getD_eq_default _ _ h1, List.getD_eq_default _ _ (by omega)]

theorem headerBytes_length (h : Header) (hwf : h.WF) : (headerBytes h).length = 52 := by
  obtain ⟨w1, l2, w3, l4, l5, l6, l7, l8, w9, w10, w11, l12, l13⟩ := hwf
  simp [headerBytes, u16le, l2, l4, l5, l6, l7, l8, l12, l13]

theorem textBytes_eq (q : Puzzle)
    (h1 : ∀ b ∈ q.title, b < 256) (h2 : ∀ b ∈ q.author, b < 256)
    (h3 : ∀ b ∈ q.copyright, b < 256) (h4 : ∀ cl ∈ q.clues, ∀ b ∈ cl, b < 256)
    (h5 : ∀ b ∈ q.notes, b < 256) :
    textBytes q =
      joinNul (([q.title, q.author, q.copyright] ++ q.clues ++ [q.notes]) ++ [q.extra]) := by
  rw [joinNul_append_map]
  unfold textBytes
  rw [puzEncode_append_nul h1, puzEncode_append_nul h2, puzEncode_append_nul h3,
    puzEncode_append_nul h5]
  rw [List.map_eq_map_iff.mpr (fun cl hcl => puzEncode_append_nul (h4 cl hcl))]
  simp [List.map_append, List.flatten_append, List.append_assoc]

/-- When the clue count is 65531, the uint16 cap 5+NumClues wraps to 0,
strings.SplitN returns no fields at all, and the parsed text fields do not
depend on the text bytes. -/
theorem mkBody_cap_zero (h : Header) (sol wrk x y : List Nat)
    (hn : h.NumClues = 65531) : mkBody h sol wrk x = mkBody h sol wrk y := by
  unfold mkBody
  rw [hn]
  norm_num
  rw [show splitNul x 0 = [] from rfl, show splitNul y 0 = [] from rfl]
  simp

attribute [ext] Puzzle

theorem mkBody_fields (h : Header) (sol wrk text : List Nat) (hn : h.NumClues ≤ 65530) :
    (mkBody h sol wrk text).title = (splitNul text (5 + h.NumClues)).getD 0 [] ∧
      (mkBody h sol wrk text).author = (splitNul text (5 + h.NumClues)).getD 1 [] ∧
      (mkBody h sol wrk text).copyright = (splitNul text (5 + h.NumClues)).getD 2 [] ∧
      (mkBody h sol wrk text).clues =
        (List.range h.NumClues).map
          (fun i => (splitNul text (5 + h.NumClues)).getD (3 + i) []) ∧
      (mkBody h sol wrk text).notes =
        (splitNul text (5 + h.NumClues)).getD (3 + h.NumClues) [] ∧
      (mkBody h sol wrk text).extra =
        (if 4 + h.NumClues < (splitNul text (5 + h.NumClues)).length
          then (splitNul text (5 + h.NumClues)).getLastD [] else []) := by
  have hcap : (5 + h.NumClues) % 65536 = 5 + h.NumClues := Nat.mod_eq_of_lt (by omega)
  unfold mkBody
  rw [hcap]
  refine ⟨padTo_getD _ _ _ (by omega), padTo_getD _ _ _ (by omega),
    padTo_getD _ _ _ (by omega), ?_, padTo_getD _ _ _ (by omega), rfl⟩
  exact List.map_eq_map_iff.mpr
    (fun i hi => padTo_getD _ _ _ (by have := List.mem_range.mp hi; omega))

theorem mkBody_roundtrip_lt (h : Header) (sol wrk text : List Nat)
    (ht : ∀ b ∈ text, b < 256) (hn : h.NumClues ≤ 65530) :
    mkBody h sol wrk (textBytes (mkBody h sol wrk text)) = mkBody h sol wrk text := by
  obtain ⟨e1, e2, e3, e4, e5, e6⟩ := mkBody_fields h sol wrk text hn
  have hbt : ∀ i, ∀ b ∈ (splitNul text (5 + h.NumClues)).getD i [], b < 256 :=
    fun i => splitNul_getD_sub _ _ _ ht
  have hnn : ∀ i, i + 1 < 5 + h.NumClues →
      ∀ b ∈ (splitNul text (5 + h.NumClues)).getD i [], b ≠ 0 :=
    fun i hi => splitNul_getD_noNul _ _ _ hi
  set q := mkBody h sol wrk text with hq
  have hcluelen : q.clues.length = h.NumClues := by
    rw [e4, List.length_map, List.length_range]
  have htb : textBytes q =
      joinNul (([q.title, q.author, q.copyright] ++ q.clues ++ [q.notes]) ++ [q.extra]) := by
    apply textBytes_eq
    · rw [e1]; exact hbt 0
    · rw [e2]; exact hbt 1
    · rw [e3]; exact hbt 2
    · rw [e4]
      intro cl hcl
      obtain ⟨i, hi, hcli⟩ := List.mem_map.mp hcl
      rw [← hcli]
      exact hbt (3 + i)
    · rw [e5]; exact hbt (3 + h.NumClues)
  have hlen : ([q.title, q.author, q.copyright] ++ q.clues ++ [q.notes]).length =
      4 + h.NumClues := by
    simp [hcluelen]
    omega
  have hnoNul : ∀ f ∈ [q.title, q.author, q.copyright] ++ q.clues ++ [q.notes],
      ∀ b ∈ f, b ≠ 0 := by
    intro f hf
    rcases List.mem_append.mp hf with hf1 | hf1
    · rcases List.mem_append.mp hf1 with hf2 | hf2
      · have : f = q.title ∨ f = q.author ∨ f = q.copyright := by
          rcases List.mem_cons.mp hf2 with h1 | h1
          · exact Or.inl h1
          rcases List.mem_cons.mp h1 with h2 | h2
          · exact Or.inr (Or.inl h2)
          rcases List.mem_cons.mp h2 with h3 | h3
          · exact Or.inr (Or.inr h3)
          · exact absurd h3 (List.not_mem_nil f)
        rcases this with h1 | h1 | h1
        · rw [h1, e1]; exact hnn 0 (by omega)
        · rw [h1, e2]; exact hnn 1 (by omega)
        · rw [h1, e3]; exact hnn 2 (by omega)
      · rw [e4] at hf2
        obtain ⟨i, hi, hcli⟩ := List.mem_map.mp hf2
        rw [← hcli]
        exact hnn (3 + i) (by have := List.mem_range.mp hi; omega)
    · have : f = q.notes := by simpa using hf1
      rw [this, e5]
      exact hnn (3 + h.NumClues) (by omega)
  have hsplit : splitNul (textBytes q) (5 + h.NumClues) =
      ([q.title, q.author, q.copyright] ++ q.clues ++ [q.notes]) ++ [q.extra] := by
    rw [htb]
    have hr := splitNul_readback
      ([q.title, q.author, q.copyright] ++ q.clues ++ [q.notes]) q.extra hnoNul
    rw [hlen] at hr
    have : 4 + h.NumClues + 1 = 5 + h.NumClues := by omega
    rw [this] at hr
    exact hr
  obtain ⟨f1, f2, f3, f4, f5, f6⟩ := mkBody_fields h sol wrk (textBytes q) hn
  have hLlen : (([q.title, q.author, q.copyright] ++ q.clues ++ [q.notes]) ++ [q.extra]).length =
      5 + h.NumClues := by
    rw [List.length_append, hlen]
    simp
    omega
  have hshape : ([q.title, q.author, q.copyright] ++ q.clues ++ [q.notes]) ++ [q.extra] =
      q.title :: q.author :: q.copyright :: ((q.clues ++ [q.notes]) ++ [q.extra]) := by
    simp [List.cons_append, List.append_assoc]
  ext1
  case header => rfl
  case grid => rfl
  case solution => rfl
  case title =>
    rw [f1, hsplit, hshape]
    rfl
  case author =>
    rw [f2, hsplit, hshape]
    rfl
  case copyright =>
    rw [f3, hsplit, hshape]
    rfl
  case clues =>
    rw [f4, e4]
    apply List.map_eq_map_iff.mpr
    intro i hi
    have hirange := List.mem_range.mp hi
    rw [hsplit, hshape]
    have hstep : (q.title :: q.author :: q.copyright ::
        ((q.clues ++ [q.notes]) ++ [q.extra])).getD (3 + i) [] =
        ((q.clues ++ [q.notes]) ++ [q.extra]).getD i [] := by
      rw [Nat.add_comm 3 i]
      rfl
    rw [hstep]
    rw [getD_append_left _ _ _ _ (by rw [List.length_append, hcluelen]; simp; omega)]
    rw [getD_append_left _ _ _ _ (by rw [hcluelen]; omega)]
    -- remaining: q.clues.getD i [] = (splitNul text (5+n)).getD (3+i) []
    rw [e4]
    have : ((List.range h.NumClues).map
        (fun j => (splitNul text (5 + h.NumClues)).getD (3 + j) [])).getD i [] =
        (splitNul text (5 + h.NumClues)).getD (3 + i) [] := by
      have hlt : i < ((List.range h.NumClues).map
          (fun j => (splitNul text (5 + h.NumClues)).getD (3 + j) [])).length := by
        rw [List.length_map, List.length_range]; omega
      rw [List.getD_eq_getElem _ _ hlt]
      simp
    rw [this]
  case notes =>
    rw [f5, hsplit, hshape]
    have hstep : (q.title :: q.author :: q.copyright ::
        ((q.clues ++ [q.notes]) ++ [q.extra])).getD (3 + h.NumClues) [] =
        ((q.clues ++ [q.notes]) ++ [q.extra]).getD h.NumClues [] := by
      rw [Nat.add_comm 3 h.NumClues]
      rfl
    rw [hstep]
    rw [getD_append_left _ _ _ _ (by rw [List.length_append, hcluelen]; simp)]
    rw [← hcluelen, getD_append_boundary _ _ _ (by simp)]
    exact e5.symm ▸ rfl
  case extra =>
    rw [f6, hsplit, hLlen, if_pos (by omega)]
    rw [List.getLastD_concat]
  case cellID => rfl
  case idCell => rfl
  case clueNumR => rfl
  case clueNumD => rfl

theorem mkBody_reconstruct (h : Header) (sol wrk text : List Nat)
    (ht : ∀ b ∈ text, b < 256)
    (hfull : (splitNul text ((5 + h.NumClues) % 65536)).length = 5 + h.NumClues) :
    textBytes (mkBody h sol wrk text) = text := by
  have hn : h.NumClues ≤ 65530 := by
    have hle := splitNul_length_le ((5 + h.NumClues) % 65536) text
    rw [hfull] at hle
    omega
  have hcap : (5 + h.NumClues) % 65536 = 5 + h.NumClues := Nat.mod_eq_of_lt (by omega)
  rw [hcap] at hfull
  obtain ⟨e1, e2, e3, e4, e5, e6⟩ := mkBody_fields h sol wrk text hn
  have hbt : ∀ i, ∀ b ∈ (splitNul text (5 + h.NumClues)).getD i [], b < 256 :=
    fun i => splitNul_getD_sub _ _ _ ht
  set q := mkBody h sol wrk text with hq
  set inF := splitNul text (5 + h.NumClues) with hinF
  have hne : inF ≠ [] := by
    rw [hinF]
    have : 5 + h.NumClues = (4 + h.NumClues) + 1 := by omega
    rw [this]
    exact splitNul_ne_nil text (4 + h.NumClues)
  have htb : textBytes q =
      joinNul (([q.title, q.author, q.copyright] ++ q.clues ++ [q.notes]) ++ [q.extra]) := by
    apply textBytes_eq
    · rw [e1]; exact hbt 0
    · rw [e2]; exact hbt 1
    · rw [e3]; exact hbt 2
    · rw [e4]
      intro cl hcl
      obtain ⟨i, hi, hcli⟩ := List.mem_map.mp hcl
      rw [← hcli]
      exact hbt (3 + i)
    · rw [e5]; exact hbt (3 + h.NumClues)
  -- the field list is the first 4+NumClues split fields
  have htk : ∀ i : Nat, i < 4 + h.NumClues →
      (inF.take (4 + h.NumClues)).getD i [] = inF.getD i [] :=
    fun i hi => getD_take inF (4 + h.NumClues) i [] hi
  have hfl : [q.title, q.author, q.copyright] ++ q.clues ++ [q.notes] =
      inF.take (4 + h.NumClues) := by
    have heta := fields_eta (inF.take (4 + h.NumClues)) h.NumClues
      (by rw [List.length_take, hfull]; omega)
    rw [htk 0 (by omega), htk 1 (by omega), htk 2 (by omega),
      htk (3 + h.NumClues) (by omega)] at heta
    have hmapeq : (List.range h.NumClues).map
        (fun i => (inF.take (4 + h.NumClues)).getD (3 + i) []) =
        (List.range h.NumClues).map (fun i => inF.getD (3 + i) []) :=
      List.map_eq_map_iff.mpr
        (fun i hi => htk (3 + i) (by have := List.mem_range.mp hi; omega))
    rw [hmapeq] at heta
    rw [e1, e2, e3, e4, e5]
    rw [← heta]
  have hex : q.extra = inF.getLastD [] := by
    rw [e6, if_pos (by rw [hfull]; omega)]
  rw [htb, hfl, hex]
  have hdl : inF.take (4 + h.NumClues) = inF.dropLast := by
    rw [List.dropLast_eq_take, hfull]
    congr 1
    omega
  have hgl : inF.getLastD [] = inF.getLast hne := getLastD_eq_getLast inF [] hne
  rw [hdl, hgl, List.dropLast_concat_getLast hne]
  have hstep : 5 + h.NumClues = (4 + h.NumClues) + 1 := by omega
  rw [hinF, hstep]
  exact joinNul_splitNul (4 + h.NumClues) text

theorem readBody_eq {h : Header} {bs : List Nat} {p : Puzzle}
    (hp : readBody h bs = some p) :
    ∃ sol wrk text, bs = sol ++ wrk ++ text ∧
      sol.length = max h.Width 1 * max h.Height 1 ∧
      wrk.length = max h.Width 1 * max h.Height 1 ∧
      h.NumClues < 65532 ∧ p = mkBody h sol wrk text := by
  rw [readBody] at hp
  rw [pstep_eq_some] at hp
  obtain ⟨sol, s1, h1, hp⟩ := hp
  rw [pstep_eq_some] at hp
  obtain ⟨wrk, s2, h2, hp⟩ := hp
  by_cases hn : h.NumClues ≥ 65532
  · rw [if_pos hn] at hp
    exact absurd hp (by simp)
  · rw [if_neg hn] at hp
    obtain ⟨eb1, el1⟩ := readBytes_eq h1
    obtain ⟨eb2, el2⟩ := readBytes_eq h2
    exact ⟨sol, wrk, s2, by rw [eb1, eb2, List.append_assoc], el1, el2, by omega,
      (Option.some_inj.mp hp).symm⟩

theorem readBody_readback (h : Header) (sol wrk text : List Nat)
    (hsl : sol.length = max h.Width 1 * max h.Height 1)
    (hwl : wrk.length = max h.Width 1 * max h.Height 1)
    (hn : h.NumClues < 65532) :
    readBody h (sol ++ wrk ++ text) = some (mkBody h sol wrk text) := by
  rw [readBody, List.append_assoc]
  rw [readBytes_readback _ _ _ hsl, pstep_some]
  rw [readBytes_readback _ _ _ hwl, pstep_some]
  rw [if_neg (by omega)]

theorem readPuz_ok_elim {bs : List Nat} {p : Puzzle} {flag : Bool}
    (h : readPuz bs = .ok (p, flag)) :
    ∃ hd rest, readHeader bs = some (hd, rest) ∧ hd.Magic = magicBytes ∧
      readBody hd rest = some p ∧ cksumOK p = flag := by
  unfold readPuz readRaw at h
  cases hh : readHeader bs with
  | none =>
    rw [hh] at h
    exact absurd h (by simp)
  | some pr =>
    cases pr with
    | mk hd rest =>
      rw [hh] at h
      dsimp only at h
      by_cases hm : hd.Magic = magicBytes
      · rw [if_pos hm] at h
        cases hbody : readBody hd rest with
        | none =>
          rw [hbody] at h
          exact absurd h (by simp)
        | some q =>
          rw [hbody] at h
          simp only [Except.ok.injEq] at h
          have hq : q = p := congrArg Prod.fst h
          have hf : cksumOK q = flag := congrArg Prod.snd h
          exact ⟨hd, rest, rfl, hm, hq ▸ hbody, hq ▸ hf⟩
      · rw [if_neg hm] at h
        exact absurd h (by simp)

theorem readPuz_ok_intro {bs : List Nat} {hd : Header} {rest : List Nat} {p : Puzzle}
    (h1 : readHeader bs = some (hd, rest)) (h2 : hd.Magic = magicBytes)
    (h3 : readBody hd rest = some p) :
    readPuz bs = .ok (p, cksumOK p) := by
  unfold readPuz readRaw
  rw [h1]
  dsimp only
  rw [if_pos h2, h3]

theorem cksumOK_true {p : Puzzle} (h : cksumOK p = true) :
    p.Cksum = p.header.Cksum ∧ p.MagicCksum = p.header.MagicCksum ∧
      p.HeaderCksum = p.header.HeaderCksum := by
  unfold cksumOK at h
  simp only [Bool.and_eq_true, decide_eq_true_eq] at h
  exact ⟨h.1.1, h.1.2, h.2⟩

theorem foldl_cksum_lt (cls : List (List Nat)) (c : Nat) (hc : c < 65536) :
    cls.foldl (fun c clue => calcCksum (puzEncode clue) c) c < 65536 := by
  induction cls generalizing c with
  | nil => exact hc
  | cons a t ih => exact ih _ (calcCksum_lt _ _ hc)

theorem headerCksum_lt (p : Puzzle) : p.HeaderCksum < 65536 :=
  calcCksum_lt _ _ (by norm_num)

theorem textCksum_lt (p : Puzzle) (c : Nat) (hc : c < 65536) :
    p.TextCksum c < 65536 := by
  unfold Puzzle.TextCksum
  split_ifs <;>
    (repeat first | exact hc | apply calcCksum_lt | apply foldl_cksum_lt)

/-- C1 amended.  For every byte stream that Read parses successfully with
matching checksums, Write followed by Read reproduces the identical Puzzle
(header fields, grid contents, metadata strings, clues, notes and Extra
bytes), again with matching checksums; and Write reproduces the original
stream byte-for-byte exactly when the stream's text section contains at
least 4+NumClues NUL separators (so that strings.SplitN yields the full
5+NumClues fields).  A stream whose text section ends without a trailing
NUL parses successfully but is not reproduced byte-for-byte: Write appends
the missing NUL terminators. -/
theorem c1_roundtrip (bs : List Nat) (p : Puzzle) (hb : ∀ b ∈ bs, b < 256)
    (hr : readPuz bs = .ok (p, true)) :
    readPuz (writePuz p) = .ok (p, true) ∧
      ((splitNul (bs.drop (52 + 2 * (max p.header.Width 1 * max p.header.Height 1)))
          ((5 + p.header.NumClues) % 65536)).length = 5 + p.header.NumClues →
        writePuz p = bs) := by
  obtain ⟨hd, rest, hH, hM, hB, hOK⟩ := readPuz_ok_elim hr
  obtain ⟨hbs, hwf⟩ := readHeader_eq hb hH
  have hbrest : ∀ b ∈ rest, b < 256 := fun b hm => hb b (hbs ▸ List.mem_append_right _ hm)
  obtain ⟨sol, wrk, text, hrest, hsl, hwl, hn, hpmk⟩ := readBody_eq hB
  have hbtext : ∀ b ∈ text, b < 256 := by
    intro b hm
    refine hbrest b (hrest ▸ ?_)
    rw [List.append_assoc]
    exact List.mem_append_right _ (List.mem_append_right _ hm)
  have hph : p.header = hd := by rw [hpmk]; rfl
  obtain ⟨hc1, hc2, hc3⟩ := cksumOK_true hOK
  have hfh : finalHeader p = hd := by
    unfold finalHeader
    rw [hc1, hc2, hc3, hph]
  have hsol : p.solution.elts = sol := by rw [hpmk]; rfl
  have hgrd : p.grid.elts = wrk := by rw [hpmk]; rfl
  have hwp : writePuz p = headerBytes hd ++ (sol ++ (wrk ++ textBytes p)) := by
    unfold writePuz
    rw [hfh, hsol, hgrd]
    simp [List.append_assoc]
  have hmk : mkBody hd sol wrk (textBytes p) = p := by
    rw [hpmk]
    by_cases hnn : hd.NumClues = 65531
    · exact mkBody_cap_zero hd sol wrk _ _ hnn
    · exact mkBody_roundtrip_lt hd sol wrk text hbtext (by omega)
  constructor
  · rw [hwp]
    have hH2 := readHeader_readback hd (sol ++ (wrk ++ textBytes p)) hwf
    have hB2 : readBody hd (sol ++ wrk ++ textBytes p) =
        some (mkBody hd sol wrk (textBytes p)) :=
      readBody_readback hd sol wrk (textBytes p) hsl hwl hn
    rw [← List.append_assoc] at hH2
    rw [List.append_assoc] at hB2
    have hout := readPuz_ok_intro hH2 hM hB2
    rw [hmk, hOK] at hout
    rw [← List.append_assoc]
    exact hout
  · intro hfull
    have hdrop : bs.drop (52 + 2 * (max hd.Width 1 * max hd.Height 1)) = text := by
      rw [hbs, hrest]
      have hshape : headerBytes hd ++ (sol ++ wrk ++ text) =
          (headerBytes hd ++ sol ++ wrk) ++ text := by
        simp [List.append_assoc]
      rw [hshape]
      apply List.drop_left'
      rw [List.length_append, List.length_append, headerBytes_length hd hwf, hsl, hwl]
      omega
    rw [hph] at hfull
    rw [hdrop] at hfull
    have hrec : textBytes p = text := by
      rw [hpmk]
      exact mkBody_reconstruct hd sol wrk text hbtext hfull
    rw [hwp, hrec, hbs, hrest, List.append_assoc]

theorem cksum_lt (p : Puzzle) : p.Cksum < 65536 :=
  textCksum_lt _ _ (calcCksum_lt _ _ (calcCksum_lt _ _ (headerCksum_lt p)))

theorem magicCksum_length (p : Puzzle) : p.MagicCksum.length = 8 := by
  simp [Puzzle.MagicCksum]

/-- The puzzle parsed from the C1 witness stream: the pC2 puzzle with the
three header checksum fields holding their computed values. -/
def p0C1 : Puzzle :=
  { pC2 with
    header :=
      { pC2.header with
        Cksum := 33229
        HeaderCksum := 1536
        MagicCksum := [73, 2, 101, 69, 71, 84, 69, 68] } }

/-- A 54-byte stream: a well-formed header with matching checksums, a 1x1
solution grid byte 65, a 1x1 working grid byte 45, and an empty text
section with no NUL separators at all. -/
def bs0C1 : List Nat :=
  [205, 129, 65, 67, 82, 79, 83, 83, 38, 68, 79, 87, 78, 0, 0, 6,
   73, 2, 101, 69, 71, 84, 69, 68, 49, 46, 51, 0, 0, 0, 0, 0,
   0, 0, 0, 0, 0, 0, 0, 0, 0, 0, 0, 0, 1, 1, 0, 0, 0, 0, 0, 0, 65, 45]

/-- The same stream with the four NUL terminators Write emits for the
empty Title, Author, Copyright and Notes fields. -/
def bs1C1 : List Nat := bs0C1 ++ [0, 0, 0, 0]

/-- C1 counterexample.  The 54-byte stream bs0C1 parses successfully (no
error, checksums match), but Write on the parsed puzzle appends four NUL
terminators the original stream never had, so read-then-write is not
byte-for-byte the identity. -/
theorem c1_counterexample :
    readPuz bs0C1 = .ok (p0C1, true) ∧ writePuz p0C1 ≠ bs0C1 :=
  ⟨rfl, by decide⟩


theorem c1_roundtrip_witness :
    readPuz (writePuz p0C1) = .ok (p0C1, true) ∧ writePuz p0C1 = bs1C1 :=
  ⟨(c1_roundtrip bs1C1 p0C1 (by decide) rfl).1,
   (c1_roundtrip bs1C1 p0C1 (by decide) rfl).2 (by decide)⟩


/-- The stream of claim C5: the same byte stream with the three stored
checksum fields overwritten (bytes 0-1, 14-15 and 16-23 of the header). -/
def setCksums (bs : List Nat) (c hc : Nat) (m : List Nat) : List Nat :=
  u16le c ++ (bs.drop 2).take 12 ++ u16le hc ++ m ++ bs.drop 24

/-- A header with its three stored checksum fields replaced. -/
def setHdr (hd : Header) (c hc : Nat) (m : List Nat) : Header :=
  { hd with Cksum := c, HeaderCksum := hc, MagicCksum := m }

theorem setCksums_headerBytes (hd : Header) (rest : List Nat) (hwf : hd.WF)
    (c hc : Nat) (m : List Nat) :
    setCksums (headerBytes hd ++ rest) c hc m = headerBytes (setHdr hd c hc m) ++ rest := by
  obtain ⟨w1, l2, w3, l4, l5, l6, l7, l8, w9, w10, w11, l12, l13⟩ := hwf
  unfold setCksums headerBytes setHdr
  have hdrop2 : ((u16le hd.Cksum ++ hd.Magic ++ u16le hd.HeaderCksum ++ hd.MagicCksum ++
      hd.Version ++ hd.Unused ++ hd.Unknown ++ hd.Reserved ++ [hd.Width, hd.Height] ++
      u16le hd.NumClues ++ hd.BitMask1 ++ hd.BitMask2 ++ rest).drop 2) =
      hd.Magic ++ u16le hd.HeaderCksum ++ hd.MagicCksum ++ hd.Version ++ hd.Unused ++
      hd.Unknown ++ hd.Reserved ++ [hd.Width, hd.Height] ++ u16le hd.NumClues ++
      hd.BitMask1 ++ hd.BitMask2 ++ rest := by
    simp only [List.append_assoc]
    exact List.drop_left' (u16le_length hd.Cksum)
  have htake12 : (hd.Magic ++ u16le hd.HeaderCksum ++ hd.MagicCksum ++ hd.Version ++
      hd.Unused ++ hd.Unknown ++ hd.Reserved ++ [hd.Width, hd.Height] ++
      u16le hd.NumClues ++ hd.BitMask1 ++ hd.BitMask2 ++ rest).take 12 = hd.Magic := by
    simp only [List.append_assoc]
    exact List.take_left' l2
  have hdrop24 : ((u16le hd.Cksum ++ hd.Magic ++ u16le hd.HeaderCksum ++ hd.MagicCksum ++
      hd.Version ++ hd.Unused ++ hd.Unknown ++ hd.Reserved ++ [hd.Width, hd.Height] ++
      u16le hd.NumClues ++ hd.BitMask1 ++ hd.BitMask2 ++ rest).drop 24) =
      hd.Version ++ hd.Unused ++ hd.Unknown ++ hd.Reserved ++ [hd.Width, hd.Height] ++
      u16le hd.NumClues ++ hd.BitMask1 ++ hd.BitMask2 ++ rest := by
    have hshape : u16le hd.Cksum ++ hd.Magic ++ u16le hd.HeaderCksum ++ hd.MagicCksum ++
        hd.Version ++ hd.Unused ++ hd.Unknown ++ hd.Reserved ++ [hd.Width, hd.Height] ++
        u16le hd.NumClues ++ hd.BitMask1 ++ hd.BitMask2 ++ rest =
        (u16le hd.Cksum ++ hd.Magic ++ u16le hd.HeaderCksum ++ hd.MagicCksum) ++
        (hd.Version ++ hd.Unused ++ hd.Unknown ++ hd.Reserved ++ [hd.Width, hd.Height] ++
          u16le hd.NumClues ++ hd.BitMask1 ++ hd.BitMask2 ++ rest) := by
      simp [List.append_assoc]
    rw [hshape]
    apply List.drop_left'
    simp [u16le_length, l2, l4]
  rw [hdrop2, htake12, hdrop24]
  simp [List.append_assoc]

theorem checksums_ignore_stored (q : Puzzle) (h2 : Header)
    (hW : h2.Width = q.header.Width) (hH : h2.Height = q.header.Height)
    (hN : h2.NumClues = q.header.NumClues)
    (hB1 : h2.BitMask1 = q.header.BitMask1) (hB2 : h2.BitMask2 = q.header.BitMask2)
    (hV : h2.Version = q.header.Version) :
    ({ q with header := h2 } : Puzzle).HeaderCksum = q.HeaderCksum ∧
      (∀ c, ({ q with header := h2 } : Puzzle).TextCksum c = q.TextCksum c) ∧
      ({ q with header := h2 } : Puzzle).Cksum = q.Cksum ∧
      ({ q with header := h2 } : Puzzle).MagicCksum = q.MagicCksum := by
  have e1 : ({ q with header := h2 } : Puzzle).HeaderCksum = q.HeaderCksum := by
    unfold Puzzle.HeaderCksum
    simp only
    rw [hW, hH, hN, hB1, hB2]
  have e2 : ∀ c, ({ q with header := h2 } : Puzzle).TextCksum c = q.TextCksum c := by
    intro c
    unfold Puzzle.TextCksum
    simp only
    rw [hV]
  have e3 : ({ q with header := h2 } : Puzzle).Cksum = q.Cksum := by
    unfold Puzzle.Cksum
    simp only
    rw [e1, e2]
  have e4 : ({ q with header := h2 } : Puzzle).MagicCksum = q.MagicCksum := by
    unfold Puzzle.MagicCksum
    simp only
    rw [e1, e2]
  exact ⟨e1, e2, e3, e4⟩

/-- The parsed puzzle with its stored header checksums replaced by the
recomputed values: what Read would produce for the same stream with
matching checksums. -/
def fixHeader (p : Puzzle) : Puzzle :=
  { p with header := setHdr p.header p.Cksum p.HeaderCksum p.MagicCksum }

/-- C5.  If Read completes a structurally valid parse but some stored
checksum differs from the recomputed one, Read returns the distinct
non-fatal Warning (modelled as the false flag in the ok branch, as opposed
to the error branch used for fatal failures), and the Puzzle is fully
populated: for the same stream with the three stored checksum fields
replaced by their computed values, Read succeeds without warning and yields
a Puzzle with identical grids, Title, Author, Copyright, Clues, Notes and
Extra. -/
theorem c5_warning (bs : List Nat) (p : Puzzle) (hb : ∀ b ∈ bs, b < 256)
    (hr : readPuz bs = .ok (p, false)) :
    readPuz (setCksums bs p.Cksum p.HeaderCksum p.MagicCksum) = .ok (fixHeader p, true) ∧
      (fixHeader p).grid = p.grid ∧ (fixHeader p).solution = p.solution ∧
      (fixHeader p).title = p.title ∧ (fixHeader p).author = p.author ∧
      (fixHeader p).copyright = p.copyright ∧ (fixHeader p).clues = p.clues ∧
      (fixHeader p).notes = p.notes ∧ (fixHeader p).extra = p.extra := by
  obtain ⟨hd, rest, hH, hM, hB, hOK⟩ := readPuz_ok_elim hr
  obtain ⟨hbs, hwf⟩ := readHeader_eq hb hH
  obtain ⟨sol, wrk, text, hrest, hsl, hwl, hn, hpmk⟩ := readBody_eq hB
  have hphd : p.header = hd := by rw [hpmk]; rfl
  refine ⟨?_, rfl, rfl, rfl, rfl, rfl, rfl, rfl, rfl⟩
  have hsurg : setCksums bs p.Cksum p.HeaderCksum p.MagicCksum =
      headerBytes (setHdr hd p.Cksum p.HeaderCksum p.MagicCksum) ++ rest := by
    rw [hbs]
    exact setCksums_headerBytes hd rest hwf _ _ _
  have hwf2 : (setHdr hd p.Cksum p.HeaderCksum p.MagicCksum).WF := by
    obtain ⟨w1, l2, w3, l4, l5, l6, l7, l8, w9, w10, w11, l12, l13⟩ := hwf
    exact ⟨cksum_lt p, l2, headerCksum_lt p, magicCksum_length p, l5, l6, l7, l8,
      w9, w10, w11, l12, l13⟩
  have hH2 := readHeader_readback _ rest hwf2
  have hB2 : readBody (setHdr hd p.Cksum p.HeaderCksum p.MagicCksum) rest =
      some (mkBody (setHdr hd p.Cksum p.HeaderCksum p.MagicCksum) sol wrk text) := by
    rw [hrest]
    exact readBody_readback _ sol wrk text hsl hwl hn
  have hmk : mkBody (setHdr hd p.Cksum p.HeaderCksum p.MagicCksum) sol wrk text =
      fixHeader p := by
    unfold fixHeader
    rw [hpmk]
    rfl
  have hM2 : (setHdr hd p.Cksum p.HeaderCksum p.MagicCksum).Magic = magicBytes := hM
  have hout := readPuz_ok_intro (hsurg ▸ hH2) hM2 hB2
  rw [hmk] at hout
  have hck : cksumOK (fixHeader p) = true := by
    obtain ⟨e1, e2, e3, e4⟩ := checksums_ignore_stored p
      (setHdr p.header p.Cksum p.HeaderCksum p.MagicCksum) rfl rfl rfl rfl rfl rfl
    unfold cksumOK fixHeader
    rw [e3, e4, e1]
    simp [setHdr]
  rw [hck] at hout
  exact hout

/-- The bs0C1 stream with its stored overall checksum perturbed by one:
structurally valid, checksum mismatch. -/
def bsWarnC5 : List Nat :=
  [206, 129, 65, 67, 82, 79, 83, 83, 38, 68, 79, 87, 78, 0, 0, 6,
   73, 2, 101, 69, 71, 84, 69, 68, 49, 46, 51, 0, 0, 0, 0, 0,
   0, 0, 0, 0, 0, 0, 0, 0, 0, 0, 0, 0, 1, 1, 0, 0, 0, 0, 0, 0, 65, 45]

/-- The puzzle parsed from bsWarnC5: stored overall checksum 33230, one
more than the computed 33229. -/
def pWarnC5 : Puzzle :=
  { p0C1 with header := { p0C1.header with Cksum := 33230 } }

theorem c5_warning_witness :
    readPuz (setCksums bsWarnC5 pWarnC5.Cksum pWarnC5.HeaderCksum pWarnC5.MagicCksum) =
        .ok (fixHeader pWarnC5, true) ∧
      (fixHeader pWarnC5).grid = pWarnC5.grid ∧
      (fixHeader pWarnC5).solution = pWarnC5.solution ∧
      (fixHeader pWarnC5).title = pWarnC5.title ∧
      (fixHeader pWarnC5).author = pWarnC5.author ∧
      (fixHeader pWarnC5).copyright = pWarnC5.copyright ∧
      (fixHeader pWarnC5).clues = pWarnC5.clues ∧
      (fixHeader pWarnC5).notes = pWarnC5.notes ∧
      (fixHeader pWarnC5).extra = pWarnC5.extra :=
  c5_warning bsWarnC5 pWarnC5 (by decide) rfl


end Crosswd
